import Mathlib

/-!
# Monitor: window selection, aggregation and alerting

A shallow embedding of the window selector (`StartIndexFor`), the aggregation
functions (`CountCodes`, `CountErrors`, `Availability`, `IsValid`,
`aggregateResults`) and the alert rule (`Websites.Alerts`) of the monitoring daemon,
of the agent's `startIndexFor`, `CountCodes` and `NewWebsites`, and of the client's
`ExtractResponseCounts`, `Count` and `UIPage.Refresh`, with the properties stated
and proved about them.

Conventions of the embedding.

* A `time.Time` is an instant on the nanosecond time line, an `Int`;
  `Time.Add d` is addition and `Time.Before` is strict `<`.
* A `time.Duration` is a Go `int64` counting nanoseconds; its arithmetic wraps
  around modulo `2^64` (`wrapInt64`).
* `time.Now()` is the parameter `now` of the functions that read the clock.
* A slice is a `List`; `t[i]` is `t[i]?`, and a function that indexes a slice
  returns an `Option`, `none` standing for the run-time panic of an index out of
  range.
* A start index is a natural number (the non-negative Go `int`s).
-/

namespace Monitor

/-! ## Time -/

/-- Go `int64` wrap-around: the representative of `x` modulo `2^64` that lies in
`[-2^63, 2^63)`. -/
def wrapInt64 (x : Int) : Int := (x + 2 ^ 63) % 2 ^ 64 - 2 ^ 63

/-- Go `time.Second`: the number of nanoseconds of one second. -/
def Second : Int := 1000000000

/-- Go `-time.Duration(timespan) * time.Second`: conversion of the `int` (64 bits
wide) to an `int64`, negation, then multiplication by `time.Second`, each in
`int64`. -/
def negDuration (timespan : Int) : Int :=
  wrapInt64 (wrapInt64 (-(wrapInt64 timespan)) * Second)

/-- Go `threshold := time.Now().Add(-time.Duration(timespan) * time.Second)`. -/
def threshold (now timespan : Int) : Int := now + negDuration timespan

/-- The number of nanoseconds of `timespan` seconds fits a signed 64-bit integer. -/
def durationFits (timespan : Int) : Prop :=
  -(2 : Int) ^ 63 ≤ timespan * Second ∧ timespan * Second < 2 ^ 63

instance (timespan : Int) : Decidable (durationFits timespan) := by
  unfold durationFits; infer_instance

/-! ## Go values -/

/-- A Go map, as the list of its entries in some order, one entry a key. -/
structure GoMap (K V : Type) where
  entries : List (K × V)
  deriving DecidableEq, Repr

/-- Go `make(map[K]V)`: the empty map. -/
def GoMap.empty {K V : Type} : GoMap K V := ⟨[]⟩

/-- Entry of key `k` in a list of entries. -/
def GoMap.find {K V : Type} [DecidableEq K] : List (K × V) → K → Option V
  | [], _ => none
  | (k', v) :: m, k => if k' = k then some v else GoMap.find m k

/-- The list of entries after `m[k] = v`. -/
def GoMap.insert {K V : Type} [DecidableEq K] : List (K × V) → K → V → List (K × V)
  | [], k, v => [(k, v)]
  | (k', v') :: m, k, v =>
    if k' = k then (k', v) :: m else (k', v') :: GoMap.insert m k v

/-- The two-valued read `v, ok := m[k]`: `none` when `m` has no entry for `k`. -/
def GoMap.get? {K V : Type} [DecidableEq K] (m : GoMap K V) (k : K) : Option V :=
  GoMap.find m.entries k

/-- The assignment `m[k] = v`. -/
def GoMap.set {K V : Type} [DecidableEq K] (m : GoMap K V) (k : K) (v : V) : GoMap K V :=
  ⟨GoMap.insert m.entries k v⟩

/-- The statement `m[k]++` on a map of integers: a missing key reads as `0`. -/
def GoMap.incr {K : Type} [DecidableEq K] (m : GoMap K Int) (k : K) : GoMap K Int :=
  m.set k ((m.get? k).getD 0 + 1)

/-- The loop `for i := startIdx; i < len(t); i++ { acc = body(acc, t[i]) }`:
`i` runs through `startIdx, ..., len(t) - 1` and each turn reads `t[i]`. -/
def forFrom {α σ : Type} (t : List α) (startIdx : Nat) (body : σ → α → σ) (init : σ) :
    Option σ :=
  (List.range' startIdx (t.length - startIdx)).foldlM
    (fun acc i => (t[i]?).map (body acc)) init

/-- A `float64` value: not-a-number, the two infinities, or a number, given by the
rational it stands for (the two zeros are one). -/
inductive F64 where
  | nan
  | negInf
  | posInf
  | num (q : ℚ)
  deriving DecidableEq

/-- Rounding of a rational to the nearest integer, a tie going to the even one. -/
def roundHalfEven (x : ℚ) : Int :=
  if x - ⌊x⌋ < 1 / 2 then ⌊x⌋
  else if 1 / 2 < x - ⌊x⌋ then ⌊x⌋ + 1
  else if ⌊x⌋ % 2 = 0 then ⌊x⌋ else ⌊x⌋ + 1

/-- The `float64` nearest to a positive rational `q`, a tie going to the even
significand: with `2^e <= q < 2^(e+1)` the `float64`s around `q` are the multiples
of `2^(e-52)`, a significand of 53 bits. The range of the exponent of a `float64`,
from -1022 to 1023, is not modelled: Go `int`s and their quotients lie between
`2^-63` and `2^63`. -/
def roundPos (q : ℚ) : ℚ :=
  (roundHalfEven (q / 2 ^ (Int.log 2 q - 52)) : ℚ) * 2 ^ (Int.log 2 q - 52)

/-- The `float64` nearest to a rational, a tie going to the even significand. -/
def roundF64 (q : ℚ) : ℚ :=
  if q = 0 then 0 else if q < 0 then -roundPos (-q) else roundPos q

/-- The quotient `float64(c) / float64(n)` of two Go `int`s: each conversion rounds
to the nearest `float64` and so does the division; `0/0` is NaN and a non-zero
number over zero is an infinity (a float division does not panic). The float
`float64(n)` is zero exactly when `n` is. -/
def float64Div (c n : Int) : F64 :=
  if n = 0 then
    if c = 0 then F64.nan else if 0 < c then F64.posInf else F64.negInf
  else F64.num (roundF64 (roundF64 (c : ℚ) / roundF64 (n : ℚ)))

/-- The comparison `a < b` of two `float64`s; false when either is NaN. -/
def F64.lt : F64 → F64 → Bool
  | F64.nan, _ => false
  | _, F64.nan => false
  | F64.negInf, F64.negInf => false
  | F64.negInf, _ => true
  | F64.posInf, _ => false
  | F64.num _, F64.negInf => false
  | F64.num _, F64.posInf => true
  | F64.num a, F64.num b => decide (a < b)

/-- The comparison `a >= b` of two `float64`s; false when either is NaN. -/
def F64.ge : F64 → F64 → Bool
  | F64.nan, _ => false
  | _, F64.nan => false
  | _, F64.negInf => true
  | F64.posInf, _ => true
  | F64.negInf, _ => false
  | F64.num _, F64.posInf => false
  | F64.num a, F64.num b => decide (b ≤ a)

/-- A Go `error` value: `Error` is the text its `Error()` method returns, `cause`
tells apart distinct underlying values that may render to the same text. -/
structure GoError where
  Error : String
  cause : Nat
  deriving DecidableEq, Repr

namespace Daemon

/-! ## src/daemon/traceResult.go -/

/-- The result of one request to a website. -/
structure TraceResult where
  Date : Int
  DNSTime : Int
  TLSTime : Int
  ConnectTime : Int
  TTFB : Int
  Error : Option GoError
  StatusCode : Int
  deriving DecidableEq, Repr

/-- All the trace results of one website. -/
abbrev TraceResults := List TraceResult

/-- The loop `for i := len(t) - 1; i >= 0; i--` of `StartIndexFor`; the argument
is `i + 1`, so `0` is the exit of the loop. -/
def StartIndexFor.loop (t : TraceResults) (threshold : Int) : Nat → Option Nat
  | 0 => some 0
  | i + 1 =>
    match t[i]? with
    | some r => if r.Date < threshold then some (i + 1) else StartIndexFor.loop t threshold i
    | none => none

/-- Go `func (t TraceResults) StartIndexFor(timespan int) int`. -/
def StartIndexFor (now : Int) (t : TraceResults) (timespan : Int) : Option Nat :=
  StartIndexFor.loop t (threshold now timespan) t.length

/-- A trace result of the given date, error and status code, its timings zero. -/
def sample (date : Int) (error : Option GoError) (code : Int) : TraceResult :=
  { Date := date, DNSTime := 0, TLSTime := 0, ConnectTime := 0, TTFB := 0,
    Error := error, StatusCode := code }

/-- Go `func (t *TraceResult) IsValid() bool`. -/
def TraceResult.IsValid (t : TraceResult) : Bool :=
  (t.Error == none) && decide (t.StatusCode < 400)

/-- Go `func (t TraceResults) CountCodes(startIdx int) map[int]int`. -/
def CountCodes (t : TraceResults) (startIdx : Nat) : Option (GoMap Int Int) :=
  forFrom t startIdx
    (fun codesCount r =>
      let code := r.StatusCode
      if code ≠ 0 then codesCount.incr code else codesCount)
    GoMap.empty

/-- Go `func (t TraceResults) CountErrors(startIdx int) map[string]int`. -/
def CountErrors (t : TraceResults) (startIdx : Nat) : Option (GoMap String Int) :=
  forFrom t startIdx
    (fun errorsCount r =>
      match r.Error with
      | some error => errorsCount.incr error.Error
      | none => errorsCount)
    GoMap.empty

/-- Go `func (t TraceResults) Availability(startIdx int) float64`. -/
def Availability (t : TraceResults) (startIdx : Nat) : Option F64 :=
  (forFrom t startIdx (fun (c : Int) r => if r.IsValid then c + 1 else c) 0).map
    (fun c => float64Div c ((t.length : Int) - (startIdx : Int)))

/-! ## src/daemon/aggregator.go -/

/-- Modelled from the spec: the declaration of `Website` is not among the sources;
its fields are the three that `aggregator.go` reads and writes (the spec's Target,
`{ url, SampleLog, alertState }`). -/
structure Website where
  URL : String
  TraceResults : TraceResults
  DownAlertSent : Bool
  deriving DecidableEq

/-- The list of monitored websites, `type Websites []Website`. -/
abbrev Websites := List Website

/-- Modelled from the spec: package `payload` is not among the sources; an alert is
the spec's `{ availability, isDown, timeframeEnd }`, its target being the key under
which `Alerts` stores it. -/
structure Alert where
  Availability : F64
  BelowThreshold : Bool
  Date : Int
  deriving DecidableEq

/-- Modelled from the spec: `payload.NewAlert(availability, belowThreshold)`, the
alert of the two arguments, dated now. -/
def NewAlert (now : Int) (availability : F64) (belowThreshold : Bool) : Alert :=
  { Availability := availability, BelowThreshold := belowThreshold, Date := now }

/-- Go `func (w *Website) Availability(timespan int) float64`. -/
def Website.Availability (now : Int) (w : Website) (timespan : Int) : Option F64 :=
  let tr := w.TraceResults
  (StartIndexFor now tr timespan).bind (fun startIdx => Daemon.Availability tr startIdx)

/-- The `if ... else if ...` of the loop of `Websites.Alerts`, for one website of
availability `avail` and flag `downAlertSent`: the alert to store under the
website's URL together with the new value of the flag, or `none` when neither
branch is taken. -/
def alertRule (now : Int) (avail threshold : F64) (downAlertSent : Bool) :
    Option (Alert × Bool) :=
  if avail.lt threshold && !downAlertSent then
    some (NewAlert now avail true, true)
  else if avail.ge threshold && downAlertSent then
    some (NewAlert now avail false, false)
  else none

/-- One turn of the loop `for i, website := range *w` of `Websites.Alerts`: the
state is the map `alerts` and the slice `*w`, whose element `i` is written in
turn `i`. -/
def Websites.Alerts.turn (now timespan : Int) (threshold : F64)
    (st : GoMap String Alert × Websites) (i : Nat) : Option (GoMap String Alert × Websites) :=
  (st.2[i]?).bind fun website =>
  (website.Availability now timespan).map fun avail =>
  match alertRule now avail threshold website.DownAlertSent with
  | some (alert, sent) =>
    (st.1.set website.URL alert, st.2.set i { website with DownAlertSent := sent })
  | none => st

/-- Go `func (w *Websites) Alerts(timespan int, threshold float64) payload.Alerts`: the
map of alerts, and the slice `*w` as the call leaves it. -/
def Websites.Alerts (now : Int) (w : Websites) (timespan : Int) (threshold : F64) :
    Option (GoMap String Alert × Websites) :=
  (List.range w.length).foldlM (Websites.Alerts.turn now timespan threshold) (GoMap.empty, w)

/-- What a call of `Alerts` does to one website: its flag as the call leaves it. -/
def Websites.Alerts.flagged (now timespan : Int) (threshold : F64) (website : Website) :
    Website :=
  match website.Availability now timespan with
  | some avail =>
    match alertRule now avail threshold website.DownAlertSent with
    | some (_, sent) => { website with DownAlertSent := sent }
    | none => website
  | none => website

/-- What a call of `Alerts` does for one website to the map of alerts. -/
def Websites.Alerts.stored (now timespan : Int) (threshold : F64)
    (alerts : GoMap String Alert) (website : Website) : GoMap String Alert :=
  match website.Availability now timespan with
  | some avail =>
    match alertRule now avail threshold website.DownAlertSent with
    | some (alert, _) => alerts.set website.URL alert
    | none => alerts
  | none => alerts

/-- The alert rule evaluated in order on a sequence of availabilities of one target
whose flag starts as `downAlertSent`: the emission of each evaluation. -/
def alertRun (now : Int) (threshold : F64) : Bool → List F64 → List (Option Alert)
  | _, [] => []
  | downAlertSent, avail :: rest =>
    match alertRule now avail threshold downAlertSent with
    | some (alert, sent) => some alert :: alertRun now threshold sent rest
    | none => none :: alertRun now threshold downAlertSent rest

/-- The flag of the target after the evaluations of `alertRun`. -/
def alertFlag (now : Int) (threshold : F64) : Bool → List F64 → Bool
  | downAlertSent, [] => downAlertSent
  | downAlertSent, avail :: rest =>
    match alertRule now avail threshold downAlertSent with
    | some (_, sent) => alertFlag now threshold sent rest
    | none => alertFlag now threshold downAlertSent rest

end Daemon

namespace Agent

/-! ## src/agent/traceResult.go -/

/-- The result of one request to a website (the agent's record has no error). -/
structure TraceResult where
  Date : Int
  DNStime : Int
  TLStime : Int
  ConnectTime : Int
  TTFB : Int
  StatusCode : Int
  deriving DecidableEq, Repr

/-- All the trace results of one website. -/
abbrev TraceResults := List TraceResult

/-- The loop `for i := len(t) - 1; i >= 0; i--` of `startIndexFor`; the argument
is `i + 1`, so `0` is the exit of the loop. -/
def startIndexFor.loop (t : TraceResults) (threshold : Int) : Nat → Option Nat
  | 0 => some 0
  | i + 1 =>
    match t[i]? with
    | some r => if r.Date < threshold then some (i + 1) else startIndexFor.loop t threshold i
    | none => none

/-- Go `func (t TraceResults) startIndexFor(timespan int) int`. -/
def startIndexFor (now : Int) (t : TraceResults) (timespan : Int) : Option Nat :=
  startIndexFor.loop t (threshold now timespan) t.length

end Agent

namespace Agent

/-- Go `func (t *TraceResults) CountCodes(startIdx int) map[int]int` of the agent:
the loop counts the status code of every result, with no test of the code. -/
def CountCodes (t : TraceResults) (startIdx : Nat) : Option (GoMap Int Int) :=
  forFrom t startIdx (fun codesCount r => codesCount.incr r.StatusCode) GoMap.empty

/-! ## src/agent/websites.go -/

/-- Modelled from the spec: the declaration of `Website` is not among the sources;
its fields are those of the spec's Target, `{ url, SampleLog, alertState }`, and the
defaults are the zero values Go gives the fields a composite literal leaves out. -/
structure Website where
  URL : String
  TraceResults : TraceResults := []
  DownAlertSent : Bool := false
  deriving DecidableEq

/-- The list of monitored websites, `type Websites []Website`. -/
abbrev Websites := List Website

/-- Go `func NewWebsites(URLs []string) (w Websites)`: the loop appends
`Website{URL: url}` for each URL in turn. -/
def NewWebsites (URLs : List String) : Websites :=
  URLs.foldl (fun w url => w ++ [{ URL := url }]) []

end Agent

namespace Payload

/-- Modelled from the spec: package `payload` is not among the sources; a metric is
the spec's `{ availability, averageBreakdown, maxBreakdown, statusCodeCounts,
errorCounts }`, under the field names `aggregateResults` gives them. The type `B` of
the two breakdowns is left open. -/
structure Metric (B : Type) where
  Availability : F64
  Average : B
  Max : B
  StatusCodeCounts : GoMap Int Int
  ErrorCounts : GoMap String Int

end Payload

namespace Daemon

/-- Go `func (w *Website) aggregateResults(timespan int) payload.Metric`. The methods
`Average` and `Max` of `TraceResults` are not among the sources and are the
parameters `average` and `max`, which may fail; the fields are evaluated in the
order of the composite literal. -/
def Website.aggregateResults {B : Type} (average max : Daemon.TraceResults → Nat → Option B)
    (now : Int) (w : Website) (timespan : Int) : Option (Payload.Metric B) :=
  let tr := w.TraceResults
  (StartIndexFor now tr timespan).bind fun startIdx =>
  (Daemon.Availability tr startIdx).bind fun availability =>
  (average tr startIdx).bind fun avg =>
  (max tr startIdx).bind fun mx =>
  (CountCodes tr startIdx).bind fun codes =>
  (CountErrors tr startIdx).map fun errors =>
  { Availability := availability, Average := avg, Max := mx,
    StatusCodeCounts := codes, ErrorCounts := errors }

end Daemon

namespace Client

/-! ## src/client/dashboardSide.go -/

/-- Go `strconv.Itoa`: the decimal rendering of an integer. -/
def Itoa (i : Int) : String := toString i

/-- Go `func Count(errors map[string]int) (c int)`: the loop adds the value of each
entry of the map to `c`, in the arithmetic of a Go `int`, 64 bits wide, which wraps
around. -/
def Count (errors : GoMap String Int) : Int :=
  errors.entries.foldl (fun c e => wrapInt64 (c + e.2)) 0

/-- Go `keys.Sort()` of a `sort.IntSlice`: the keys in increasing order. -/
def sortInts (keys : List Int) : List Int := keys.insertionSort (· ≤ ·)

/-- Go `func ExtractResponseCounts(m payload.Metric) (values []int, labels []string)`.
The first loop collects the keys of the map in the order of its entries, the order
in which `range` happens to visit them; a key the map lacks would read as `0`. -/
def ExtractResponseCounts {B : Type} (m : Payload.Metric B) : List Int × List String :=
  let keys := sortInts (m.StatusCodeCounts.entries.foldl (fun keys e => keys ++ [e.1]) [])
  let filled := keys.foldl
    (fun (acc : List Int × List String) key =>
      (acc.1 ++ [(m.StatusCodeCounts.get? key).getD 0], acc.2 ++ [Itoa key]))
    ([], [])
  let labels := filled.2 ++ ["err"]
  let values := filled.1 ++ [Count m.ErrorCounts]
  (values, labels)

/-! ## src/cmd/monitorctl/client/uipage.go -/

/-- Modelled from the spec: the declaration of `Store` is not among the sources; of
the spec's Store the two fields are kept that `Refresh` reads to pick the page, the
index of the displayed website, a Go `int`, and the list of URLs. -/
structure Store where
  CurrentIdx : Int
  URLs : List String
  deriving DecidableEq

/-- The texts of the page that `Refresh` writes, and the state `Sides` of its two
sides, whose type is left open. -/
structure UIPage (σ : Type) where
  Title : String
  Counter : String
  Alerts : String
  Sides : σ

/-- Go `s[i]` for an `int` index: `none`, the run-time panic, when `i` is negative or
not below the length. -/
def index {α : Type} (s : List α) (i : Int) : Option α :=
  if 0 ≤ i then s[i.toNat]? else none

/-- Go `func (p *UIPage) Refresh(s *Store)`. `FormatAlerts(&s.Alerts, url)` is the
parameter `formatAlerts url`, and the refresh of the two sides from the metrics of
`url` is the parameter `refreshSides`. -/
def UIPage.Refresh {σ : Type} (formatAlerts : String → String) (refreshSides : σ → String → σ)
    (p : UIPage σ) (s : Store) : Option (UIPage σ) :=
  if s.CurrentIdx ≥ (s.URLs.length : Int) then some p
  else
    (index s.URLs s.CurrentIdx).map fun url =>
      { Title := url,
        Counter := "Page " ++ Itoa (s.CurrentIdx + 1) ++ "/" ++ Itoa (s.URLs.length : Int),
        Alerts := formatAlerts url,
        Sides := refreshSides p.Sides url }

end Client

namespace Client

/-- A metric of two status codes and two error texts, its breakdowns left out. -/
def sampleMetric : Payload.Metric Unit :=
  { Availability := F64.nan, Average := (), Max := (),
    StatusCodeCounts := ⟨[(503, 1), (200, 2)]⟩,
    ErrorCounts := ⟨[("timeout", 1), ("EOF", 3)]⟩ }

/-- A metric with no status code and two error texts whose counts, the largest Go
`int` and 1, add up to `2^63`. -/
def overflowMetric : Payload.Metric Unit :=
  { Availability := F64.nan, Average := (), Max := (),
    StatusCodeCounts := ⟨[]⟩,
    ErrorCounts := ⟨[("a", 9223372036854775807), ("b", 1)]⟩ }

end Client

/-! # Theorems -/

/-! ## Time arithmetic -/

theorem wrapInt64_of_range (x : Int) (h1 : -(2 : Int) ^ 63 ≤ x) (h2 : x < 2 ^ 63) :
    wrapInt64 x = x := by
  unfold wrapInt64
  have h3 : (x + 2 ^ 63) % 2 ^ 64 = x + 2 ^ 63 :=
    Int.emod_eq_of_lt (by omega) (by omega)
  omega

theorem negDuration_of_fits (timespan : Int) (h : durationFits timespan) :
    negDuration timespan = -(timespan * Second) := by
  obtain ⟨h1, h2⟩ := h
  unfold Second at h1 h2
  unfold negDuration
  have e1 : wrapInt64 timespan = timespan := wrapInt64_of_range _ (by omega) (by omega)
  have e2 : wrapInt64 (-timespan) = -timespan := wrapInt64_of_range _ (by omega) (by omega)
  rw [e1, e2]
  unfold Second
  rw [wrapInt64_of_range _ (by omega) (by omega)]
  omega

theorem threshold_of_fits (now timespan : Int) (h : durationFits timespan) :
    threshold now timespan = now - timespan * Second := by
  unfold threshold
  rw [negDuration_of_fits timespan h]
  omega

/-! ## Rounding to a `float64` -/

theorem roundHalfEven_bounds (x : ℚ) :
    x - 1 / 2 ≤ (roundHalfEven x : ℚ) ∧ (roundHalfEven x : ℚ) ≤ x + 1 / 2 := by
  have h1 : (⌊x⌋ : ℚ) ≤ x := Int.floor_le x
  have h2 : x < (⌊x⌋ : ℚ) + 1 := Int.lt_floor_add_one x
  unfold roundHalfEven
  split_ifs with ha hb hc
  · constructor <;> linarith
  · push_cast; constructor <;> linarith
  · have : x - ⌊x⌋ = 1 / 2 := le_antisymm (not_lt.mp hb) (not_lt.mp ha)
    constructor <;> linarith
  · have : x - ⌊x⌋ = 1 / 2 := le_antisymm (not_lt.mp hb) (not_lt.mp ha)
    push_cast; constructor <;> linarith

theorem roundHalfEven_intCast (z : Int) : roundHalfEven (z : ℚ) = z := by
  unfold roundHalfEven
  simp

theorem roundHalfEven_mono {x y : ℚ} (h : x ≤ y) : roundHalfEven x ≤ roundHalfEven y := by
  by_contra hlt
  have hlt' : roundHalfEven y + 1 ≤ roundHalfEven x := by omega
  have hq : ((roundHalfEven y : ℚ)) + 1 ≤ (roundHalfEven x : ℚ) := by exact_mod_cast hlt'
  have hx := (roundHalfEven_bounds x).2
  have hy := (roundHalfEven_bounds y).1
  have hxy : x = y := by linarith
  subst hxy
  omega

theorem log_two_eq {q : ℚ} (hq : 0 < q) (j : Int) (h1 : (2 : ℚ) ^ j ≤ q)
    (h2 : q < (2 : ℚ) ^ (j + 1)) : Int.log 2 q = j := by
  have a : j ≤ Int.log 2 q := by
    rw [← Int.zpow_le_iff_le_log (by norm_num) hq]
    exact_mod_cast h1
  have b : Int.log 2 q < j + 1 := by
    rw [← Int.lt_zpow_iff_log_lt (by norm_num) hq]
    exact_mod_cast h2
  omega

theorem log_two_bounds {q : ℚ} (hq : 0 < q) :
    (2 : ℚ) ^ Int.log 2 q ≤ q ∧ q < (2 : ℚ) ^ (Int.log 2 q + 1) := by
  constructor
  · exact_mod_cast Int.zpow_log_le_self (b := 2) (by norm_num) hq
  · exact_mod_cast Int.lt_zpow_succ_log_self (b := 2) (by norm_num) q

theorem scaled_bounds {q : ℚ} (hq : 0 < q) :
    (2 : ℚ) ^ (52 : Int) ≤ q / 2 ^ (Int.log 2 q - 52) ∧
      q / 2 ^ (Int.log 2 q - 52) < (2 : ℚ) ^ (53 : Int) := by
  obtain ⟨h1, h2⟩ := log_two_bounds hq
  have hpos : (0 : ℚ) < 2 ^ (Int.log 2 q - 52) := zpow_pos (by norm_num) _
  have e1 : (2 : ℚ) ^ (52 : Int) * 2 ^ (Int.log 2 q - 52) = 2 ^ Int.log 2 q := by
    rw [← zpow_add₀ (by norm_num : (2 : ℚ) ≠ 0)]; congr 1; omega
  have e2 : (2 : ℚ) ^ (53 : Int) * 2 ^ (Int.log 2 q - 52) = 2 ^ (Int.log 2 q + 1) := by
    rw [← zpow_add₀ (by norm_num : (2 : ℚ) ≠ 0)]; congr 1; omega
  constructor
  · rw [le_div_iff₀ hpos, e1]; exact h1
  · rw [div_lt_iff₀ hpos, e2]; exact h2

theorem roundPos_range {q : ℚ} (hq : 0 < q) :
    (2 : ℚ) ^ Int.log 2 q ≤ roundPos q ∧ roundPos q ≤ (2 : ℚ) ^ (Int.log 2 q + 1) := by
  obtain ⟨h1, h2⟩ := scaled_bounds hq
  have hpos : (0 : ℚ) < 2 ^ (Int.log 2 q - 52) := zpow_pos (by norm_num) _
  have e1 : (2 : ℚ) ^ (52 : Int) * 2 ^ (Int.log 2 q - 52) = 2 ^ Int.log 2 q := by
    rw [← zpow_add₀ (by norm_num : (2 : ℚ) ≠ 0)]; congr 1; omega
  have e2 : (2 : ℚ) ^ (53 : Int) * 2 ^ (Int.log 2 q - 52) = 2 ^ (Int.log 2 q + 1) := by
    rw [← zpow_add₀ (by norm_num : (2 : ℚ) ≠ 0)]; congr 1; omega
  have c1 : (((2 : Int) ^ (52 : Nat) : Int) : ℚ) = (2 : ℚ) ^ (52 : Int) := by norm_num
  have c2 : (((2 : Int) ^ (53 : Nat) : Int) : ℚ) = (2 : ℚ) ^ (53 : Int) := by norm_num
  have lo : ((2 : Int) ^ (52 : Nat) : Int) ≤ roundHalfEven (q / 2 ^ (Int.log 2 q - 52)) := by
    have := roundHalfEven_mono (x := (((2 : Int) ^ (52 : Nat) : Int) : ℚ))
      (y := q / 2 ^ (Int.log 2 q - 52)) (by rw [c1]; exact h1)
    rwa [roundHalfEven_intCast] at this
  have hi : roundHalfEven (q / 2 ^ (Int.log 2 q - 52)) ≤ ((2 : Int) ^ (53 : Nat) : Int) := by
    have := roundHalfEven_mono (x := q / 2 ^ (Int.log 2 q - 52))
      (y := (((2 : Int) ^ (53 : Nat) : Int) : ℚ)) (by rw [c2]; exact le_of_lt h2)
    rwa [roundHalfEven_intCast] at this
  have loq : (2 : ℚ) ^ (52 : Int) ≤ (roundHalfEven (q / 2 ^ (Int.log 2 q - 52)) : ℚ) := by
    rw [← c1]; exact_mod_cast lo
  have hiq : (roundHalfEven (q / 2 ^ (Int.log 2 q - 52)) : ℚ) ≤ (2 : ℚ) ^ (53 : Int) := by
    rw [← c2]; exact_mod_cast hi
  unfold roundPos
  constructor
  · rw [← e1]; exact mul_le_mul_of_nonneg_right loq (le_of_lt hpos)
  · rw [← e2]; exact mul_le_mul_of_nonneg_right hiq (le_of_lt hpos)

theorem roundPos_pos {q : ℚ} (hq : 0 < q) : 0 < roundPos q :=
  lt_of_lt_of_le (zpow_pos (by norm_num) _) (roundPos_range hq).1

theorem roundPos_mono {x y : ℚ} (hx : 0 < x) (hxy : x ≤ y) : roundPos x ≤ roundPos y := by
  have hy : 0 < y := lt_of_lt_of_le hx hxy
  have hlog : Int.log 2 x ≤ Int.log 2 y := Int.log_mono_right hx hxy
  rcases eq_or_lt_of_le hlog with heq | hlt
  · unfold roundPos
    rw [heq]
    have hpos : (0 : ℚ) < 2 ^ (Int.log 2 y - 52) := zpow_pos (by norm_num) _
    apply mul_le_mul_of_nonneg_right _ (le_of_lt hpos)
    have : roundHalfEven (x / 2 ^ (Int.log 2 y - 52)) ≤
        roundHalfEven (y / 2 ^ (Int.log 2 y - 52)) :=
      roundHalfEven_mono (div_le_div_of_nonneg_right hxy (le_of_lt hpos))
    exact_mod_cast this
  · calc roundPos x ≤ (2 : ℚ) ^ (Int.log 2 x + 1) := (roundPos_range hx).2
      _ ≤ (2 : ℚ) ^ Int.log 2 y := zpow_le_zpow_right₀ (by norm_num) (by omega)
      _ ≤ roundPos y := (roundPos_range hy).1

theorem roundPos_exact {q : ℚ} (z : Int)
    (hz : q / 2 ^ (Int.log 2 q - 52) = (z : ℚ)) : roundPos q = q := by
  have hpos : (0 : ℚ) < 2 ^ (Int.log 2 q - 52) := zpow_pos (by norm_num) _
  unfold roundPos
  rw [hz, roundHalfEven_intCast, ← hz]
  field_simp

theorem roundPos_error {q : ℚ} (hq : 0 < q) :
    |roundPos q - q| ≤ q * 2 ^ (-53 : Int) := by
  obtain ⟨h1, _⟩ := log_two_bounds hq
  have hpos : (0 : ℚ) < 2 ^ (Int.log 2 q - 52) := zpow_pos (by norm_num) _
  obtain ⟨b1, b2⟩ := roundHalfEven_bounds (q / 2 ^ (Int.log 2 q - 52))
  have hq' : q = q / 2 ^ (Int.log 2 q - 52) * 2 ^ (Int.log 2 q - 52) := by field_simp
  have e : (2 : ℚ) ^ (Int.log 2 q - 52) * (1 / 2) = 2 ^ Int.log 2 q * 2 ^ (-53 : Int) := by
    rw [← zpow_add₀ (by norm_num : (2 : ℚ) ≠ 0)]
    have : Int.log 2 q + -53 = (Int.log 2 q - 52) + (-1) := by omega
    rw [this, zpow_add₀ (by norm_num : (2 : ℚ) ≠ 0)]
    norm_num
  have hb : |roundPos q - q| ≤ 2 ^ (Int.log 2 q - 52) * (1 / 2) := by
    unfold roundPos
    rw [abs_le]
    constructor
    · nlinarith
    · nlinarith
  calc |roundPos q - q| ≤ 2 ^ (Int.log 2 q - 52) * (1 / 2) := hb
    _ = 2 ^ Int.log 2 q * 2 ^ (-53 : Int) := e
    _ ≤ q * 2 ^ (-53 : Int) :=
      mul_le_mul_of_nonneg_right h1 (le_of_lt (zpow_pos (by norm_num) _))

theorem roundF64_nonneg {q : ℚ} (hq : 0 ≤ q) : 0 ≤ roundF64 q := by
  unfold roundF64
  split_ifs with h0 hneg
  · exact le_refl _
  · exact absurd hneg (not_lt.mpr hq)
  · exact le_of_lt (roundPos_pos (lt_of_le_of_ne hq (Ne.symm h0)))

theorem roundF64_of_pos {q : ℚ} (hq : 0 < q) : roundF64 q = roundPos q := by
  unfold roundF64
  rw [if_neg (ne_of_gt hq), if_neg (not_lt.mpr (le_of_lt hq))]

theorem roundF64_mono {x y : ℚ} (hx : 0 ≤ x) (hxy : x ≤ y) : roundF64 x ≤ roundF64 y := by
  rcases eq_or_lt_of_le hx with h0 | hpos
  · rw [← h0]
    have : roundF64 0 = 0 := by simp [roundF64]
    rw [this]
    exact roundF64_nonneg (le_trans hx hxy)
  · rw [roundF64_of_pos hpos, roundF64_of_pos (lt_of_lt_of_le hpos hxy)]
    exact roundPos_mono hpos hxy

theorem roundF64_natCast (n : Nat) (hn : n < 2 ^ 53) : roundF64 (n : ℚ) = n := by
  rcases Nat.eq_zero_or_pos n with h0 | hpos
  · subst h0; simp [roundF64]
  · have hq : (0 : ℚ) < n := by exact_mod_cast hpos
    rw [roundF64_of_pos hq]
    have hlog : Int.log 2 (n : ℚ) = (Nat.log 2 n : Int) := Int.log_natCast 2 n
    have hle : Nat.log 2 n < 53 := Nat.log_lt_of_lt_pow (by omega) hn
    apply roundPos_exact ((n : Int) * 2 ^ (52 - Nat.log 2 n))
    rw [hlog]
    have : ((Nat.log 2 n : Int) - 52) = -((52 - Nat.log 2 n : Nat) : Int) := by omega
    rw [this, zpow_neg, div_inv_eq_mul, zpow_natCast]
    push_cast
    rfl

theorem roundF64_eq_zero_iff (q : ℚ) : roundF64 q = 0 ↔ q = 0 := by
  constructor
  · intro h
    by_contra hne
    unfold roundF64 at h
    rw [if_neg hne] at h
    split_ifs at h with hneg
    · have := roundPos_pos (q := -q) (by linarith)
      linarith
    · have := roundPos_pos (q := q) (lt_of_le_of_ne (not_lt.mp hneg) (Ne.symm hne))
      linarith
  · rintro rfl; simp [roundF64]

theorem roundF64_third :
    roundF64 ((1 : ℚ) / 3) = 6004799503160661 / 18014398509481984 := by
  have hlog : Int.log 2 ((1 : ℚ) / 3) = -2 :=
    log_two_eq (by norm_num) (-2) (by norm_num) (by norm_num)
  have hfloor : ⌊((1 : ℚ) / 3) / 2 ^ (-54 : Int)⌋ = 6004799503160661 := by
    rw [Int.floor_eq_iff]
    constructor <;> norm_num
  rw [roundF64_of_pos (by norm_num)]
  unfold roundPos
  rw [hlog]
  have h54 : (-2 : Int) - 52 = -54 := by norm_num
  rw [h54]
  unfold roundHalfEven
  rw [hfloor]
  norm_num

theorem roundF64_zero : roundF64 0 = 0 := by simp [roundF64]

theorem roundF64_one : roundF64 1 = 1 := by
  have := roundF64_natCast 1 (by norm_num)
  simpa using this

theorem roundF64_half : roundF64 ((1 : ℚ) / 2) = 1 / 2 := by
  have hlog : Int.log 2 ((1 : ℚ) / 2) = -1 :=
    log_two_eq (by norm_num) (-1) (by norm_num) (by norm_num)
  rw [roundF64_of_pos (by norm_num)]
  apply roundPos_exact ((2 : Int) ^ 52)
  rw [hlog]
  norm_num

theorem roundF64_error {q : ℚ} (hq : 0 ≤ q) : |roundF64 q - q| ≤ q * 2 ^ (-53 : Int) := by
  rcases eq_or_lt_of_le hq with h0 | hpos
  · rw [← h0, roundF64_zero]; simp
  · rw [roundF64_of_pos hpos]; exact roundPos_error hpos

theorem float64Div_zero_left (n : Int) (hn : n ≠ 0) : float64Div 0 n = F64.num 0 := by
  simp [float64Div, hn, roundF64_zero]

theorem float64Div_one_one : float64Div 1 1 = F64.num 1 := by
  simp [float64Div, roundF64_one]

/-- The quotient of two naturals, `0 <= c <= n` and `0 < n`, is a number from 0 to 1,
the rounded quotient of the two roundings. -/
theorem float64Div_unit (c n : Nat) (hc : c ≤ n) (hn : 0 < n) :
    float64Div (c : Int) (n : Int) =
        F64.num (roundF64 (roundF64 (c : ℚ) / roundF64 (n : ℚ))) ∧
      0 ≤ roundF64 (roundF64 (c : ℚ) / roundF64 (n : ℚ)) ∧
      roundF64 (roundF64 (c : ℚ) / roundF64 (n : ℚ)) ≤ 1 := by
  have hne : (n : Int) ≠ 0 := by omega
  have hcq : (0 : ℚ) ≤ c := Nat.cast_nonneg c
  have hnq : (0 : ℚ) < n := by exact_mod_cast hn
  have hcn : (c : ℚ) ≤ n := by exact_mod_cast hc
  have h1 : 0 ≤ roundF64 (c : ℚ) := roundF64_nonneg hcq
  have h2 : roundF64 (c : ℚ) ≤ roundF64 (n : ℚ) := roundF64_mono hcq hcn
  have h3 : 0 < roundF64 (n : ℚ) := by
    rw [roundF64_of_pos hnq]; exact roundPos_pos hnq
  have h4 : 0 ≤ roundF64 (c : ℚ) / roundF64 (n : ℚ) := div_nonneg h1 (le_of_lt h3)
  have h5 : roundF64 (c : ℚ) / roundF64 (n : ℚ) ≤ 1 := (div_le_one h3).mpr h2
  refine ⟨?_, roundF64_nonneg h4, ?_⟩
  · simp [float64Div, hne]
  · have := roundF64_mono h4 h5
    rwa [roundF64_one] at this

namespace Daemon

theorem StartIndexFor.loop_spec (t : TraceResults) (thr : Int) :
    ∀ n, n ≤ t.length → ∃ i, StartIndexFor.loop t thr n = some i ∧ i ≤ n ∧
      (∀ j r, i ≤ j → j < n → t[j]? = some r → thr ≤ r.Date) ∧
      (0 < i → ∃ r, t[i - 1]? = some r ∧ r.Date < thr) := by
  intro n
  induction n with
  | zero =>
    intro _
    exact ⟨0, rfl, le_refl _, fun j r _ hj => absurd hj (Nat.not_lt_zero j),
      fun h => absurd h (Nat.lt_irrefl 0)⟩
  | succ n ih =>
    intro hn
    have hlt : n < t.length := hn
    have hget : t[n]? = some t[n] := List.getElem?_eq_getElem hlt
    by_cases hd : t[n].Date < thr
    · refine ⟨n + 1, ?_, le_refl _, ?_, ?_⟩
      · simp [StartIndexFor.loop, hget, hd]
      · intro j r h1 h2; omega
      · intro _
        exact ⟨t[n], by simp, hd⟩
    · obtain ⟨i, hi, hle, hwin, hprev⟩ := ih (Nat.le_of_lt hlt)
      refine ⟨i, ?_, Nat.le_succ_of_le hle, ?_, hprev⟩
      · simp [StartIndexFor.loop, hget, hd, hi]
      · intro j r h1 h2 hr
        by_cases hjn : j = n
        · subst hjn
          rw [hget] at hr
          cases hr
          exact not_lt.mp hd
        · exact hwin j r h1 (by omega) hr

theorem StartIndexFor.loop_all_old (t : TraceResults) (thr : Int)
    (hold : ∀ r ∈ t, r.Date < thr) : StartIndexFor.loop t thr t.length = some t.length := by
  cases hlen : t.length with
  | zero => rfl
  | succ n =>
    have hlt : n < t.length := by omega
    have hget : t[n]? = some t[n] := List.getElem?_eq_getElem hlt
    have hd : t[n].Date < thr := hold _ (List.getElem_mem hlt)
    simp [StartIndexFor.loop, hget, hd]

end Daemon


theorem forFrom_eq_foldl {α σ : Type} (t : List α) (body : σ → α → σ) :
    ∀ (n startIdx : Nat) (init : σ), t.length - startIdx = n →
      forFrom t startIdx body init = some ((t.drop startIdx).foldl body init) := by
  intro n
  induction n with
  | zero =>
    intro s init h
    have hdrop : t.drop s = [] := List.drop_eq_nil_of_le (by omega)
    simp [forFrom, h, hdrop]
  | succ n ih =>
    intro s init h
    have hlt : s < t.length := by omega
    have hget : t[s]? = some t[s] := List.getElem?_eq_getElem hlt
    have hdrop : t.drop s = t[s] :: t.drop (s + 1) := List.drop_eq_getElem_cons hlt
    have hrec := ih (s + 1) (body init t[s]) (by omega)
    unfold forFrom at hrec ⊢
    have hn : t.length - (s + 1) = n := by omega
    rw [hn] at hrec
    rw [h, hdrop, List.range'_succ, List.foldlM_cons, hget]
    simp only [Option.map_some', List.foldl_cons, Option.bind_eq_bind, Option.some_bind]
    exact hrec

namespace Agent

theorem startIndexFor.loop_le (t : TraceResults) (thr : Int) :
    ∀ n, n ≤ t.length → ∃ i, startIndexFor.loop t thr n = some i ∧ i ≤ n := by
  intro n
  induction n with
  | zero => intro _; exact ⟨0, rfl, le_refl _⟩
  | succ n ih =>
    intro hn
    have hlt : n < t.length := hn
    have hget : t[n]? = some t[n] := List.getElem?_eq_getElem hlt
    by_cases hd : t[n].Date < thr
    · exact ⟨n + 1, by simp [startIndexFor.loop, hget, hd], le_refl _⟩
    · obtain ⟨i, hi, hle⟩ := ih (Nat.le_of_lt hlt)
      exact ⟨i, by simp [startIndexFor.loop, hget, hd, hi], Nat.le_succ_of_le hle⟩

theorem startIndexFor.loop_expired (t : TraceResults) (thr : Int)
    (hold : ∀ r ∈ t, r.Date < thr) : startIndexFor.loop t thr t.length = some t.length := by
  cases hlen : t.length with
  | zero => rfl
  | succ n =>
    have hlt : n < t.length := by omega
    have hget : t[n]? = some t[n] := List.getElem?_eq_getElem hlt
    have hd : t[n].Date < thr := hold _ (List.getElem_mem hlt)
    simp [startIndexFor.loop, hget, hd]

end Agent

namespace Daemon

/-- C1 (amended): for every log, every fixed `now` and every timespan whose number of
nanoseconds fits a signed 64-bit integer, `StartIndexFor` returns an index `i` such
that every entry at an index `>= i` has `Date >= now - timespan` seconds, the entry
at `i - 1` (when `i > 0`) has `Date < now - timespan` seconds, and `i` is the
smallest index from which all entries are in the window. An entry dated exactly at
the threshold is in the window. Non-decreasing dates are not needed for this. -/
theorem StartIndexFor_window (now : Int) (t : TraceResults) (timespan : Int)
    (hfit : durationFits timespan) :
    ∃ i, StartIndexFor now t timespan = some i ∧
      (∀ j r, i ≤ j → t[j]? = some r → now - timespan * Second ≤ r.Date) ∧
      (0 < i → ∃ r, t[i - 1]? = some r ∧ r.Date < now - timespan * Second) ∧
      (∀ k, (∀ j r, k ≤ j → t[j]? = some r → now - timespan * Second ≤ r.Date) → i ≤ k) := by
  obtain ⟨i, hi, _, hwin, hprev⟩ :=
    StartIndexFor.loop_spec t (threshold now timespan) t.length (le_refl _)
  rw [threshold_of_fits now timespan hfit] at hwin hprev
  refine ⟨i, hi, ?_, hprev, ?_⟩
  · intro j r hij hr
    have hj : j < t.length := (List.getElem?_eq_some_iff.mp hr).1
    exact hwin j r hij hj hr
  · intro k hk
    by_contra hlt
    obtain ⟨r, hr, hd⟩ := hprev (by omega)
    have := hk (i - 1) r (by omega) hr
    omega

/-- The statement of C1 at a log of two entries, six minutes old and dated now, for
a timespan of 180 seconds. -/
theorem StartIndexFor_window_witness :
    durationFits 180 ∧
    ∃ i, StartIndexFor 0 [sample (-360 * Second) none 200, sample 0 none 200] 180 = some i ∧
      (∀ j r, i ≤ j → [sample (-360 * Second) none 200, sample 0 none 200][j]? = some r →
        0 - 180 * Second ≤ r.Date) ∧
      (0 < i → ∃ r, [sample (-360 * Second) none 200, sample 0 none 200][i - 1]? = some r ∧
        r.Date < 0 - 180 * Second) ∧
      (∀ k, (∀ j r, k ≤ j → [sample (-360 * Second) none 200, sample 0 none 200][j]? = some r →
        0 - 180 * Second ≤ r.Date) → i ≤ k) :=
  ⟨by decide, StartIndexFor_window 0 _ 180 (by decide)⟩

/-- C1 as stated fails when the duration overflows: for a timespan of 9223372037
seconds the code returns the index 1 on the log of one entry dated now, and that
entry is not older than `now - timespan` seconds. -/
theorem StartIndexFor_window_overflow :
    ∃ i r, StartIndexFor 0 [sample 0 none 200] 9223372037 = some i ∧ 0 < i ∧
      [sample 0 none 200][i - 1]? = some r ∧ ¬ (r.Date < 0 - 9223372037 * Second) :=
  ⟨1, sample 0 none 200, by decide, by decide, by decide, by decide⟩


theorem StartIndexFor.drop_eq_filter (t : TraceResults) (thr : Int) (i : Nat)
    (hsorted : t.Pairwise (fun a b => a.Date ≤ b.Date))
    (hwin : ∀ j r, i ≤ j → t[j]? = some r → thr ≤ r.Date)
    (hprev : 0 < i → ∃ r, t[i - 1]? = some r ∧ r.Date < thr) :
    t.drop i = t.filter (fun r => decide (thr ≤ r.Date)) ∧
      ∀ j r, j < i → t[j]? = some r → r.Date < thr := by
  have hold : ∀ j r, j < i → t[j]? = some r → r.Date < thr := by
    intro j r hj hr
    obtain ⟨r', hr', hd⟩ := hprev (by omega)
    obtain ⟨hj', rfl⟩ := List.getElem?_eq_some_iff.mp hr
    obtain ⟨hi', rfl⟩ := List.getElem?_eq_some_iff.mp hr'
    by_cases hji : j = i - 1
    · subst hji; exact hd
    · have := List.pairwise_iff_getElem.mp hsorted j (i - 1) hj' hi' (by omega)
      omega
  refine ⟨?_, hold⟩
  have h1 : (t.take i).filter (fun r => decide (thr ≤ r.Date)) = [] := by
    rw [List.filter_eq_nil_iff]
    intro r hr
    obtain ⟨j, hj⟩ := List.mem_iff_getElem?.mp hr
    rw [List.getElem?_take] at hj
    split at hj
    · have := hold j r (by assumption) hj
      simp only [decide_eq_true_eq]; omega
    · cases hj
  have h2 : (t.drop i).filter (fun r => decide (thr ≤ r.Date)) = t.drop i := by
    rw [List.filter_eq_self]
    intro r hr
    obtain ⟨j, hj⟩ := List.mem_iff_getElem?.mp hr
    rw [List.getElem?_drop] at hj
    simpa using hwin (i + j) r (by omega) hj
  calc t.drop i = (t.take i).filter (fun r => decide (thr ≤ r.Date)) ++
        (t.drop i).filter (fun r => decide (thr ≤ r.Date)) := by rw [h1, h2]; rfl
    _ = (t.take i ++ t.drop i).filter (fun r => decide (thr ≤ r.Date)) := by
        rw [List.filter_append]
    _ = t.filter (fun r => decide (thr ≤ r.Date)) := by rw [List.take_append_drop]

/-- C2 (amended): for every log of non-decreasing dates, every fixed `now` and every
timespan whose number of nanoseconds fits a signed 64-bit integer, the suffix
`t[StartIndexFor(timespan):]` is the list of the entries of `t` with
`Date >= now - timespan` seconds, in the same order; when that list is not empty the
index is that of the first entry in the window, every earlier entry being older. -/
theorem StartIndexFor_suffix_eq_window (now : Int) (t : TraceResults) (timespan : Int)
    (hsorted : t.Pairwise (fun a b => a.Date ≤ b.Date)) (hfit : durationFits timespan) :
    ∃ i, StartIndexFor now t timespan = some i ∧
      t.drop i = t.filter (fun r => decide (now - timespan * Second ≤ r.Date)) ∧
      (t.filter (fun r => decide (now - timespan * Second ≤ r.Date)) ≠ [] →
        ∃ r, t[i]? = some r ∧ now - timespan * Second ≤ r.Date ∧
          ∀ j r', j < i → t[j]? = some r' → r'.Date < now - timespan * Second) := by
  obtain ⟨i, hi, hle, hwin, hprev⟩ :=
    StartIndexFor.loop_spec t (threshold now timespan) t.length (le_refl _)
  rw [threshold_of_fits now timespan hfit] at hwin hprev
  have hwin' : ∀ j r, i ≤ j → t[j]? = some r → now - timespan * Second ≤ r.Date :=
    fun j r hij hr => hwin j r hij (List.getElem?_eq_some_iff.mp hr).1 hr
  obtain ⟨hdrop, hold⟩ :=
    StartIndexFor.drop_eq_filter t (now - timespan * Second) i hsorted hwin' hprev
  refine ⟨i, hi, hdrop, ?_⟩
  intro hne
  rw [← hdrop] at hne
  have hlt : i < t.length := by
    by_contra hge
    exact hne (List.drop_eq_nil_of_le (by omega))
  exact ⟨t[i], List.getElem?_eq_getElem hlt,
    hwin' i t[i] (le_refl _) (List.getElem?_eq_getElem hlt), hold⟩

/-- The statement of C2 at the log of the docstring of `StartIndexFor`, dates `now`
minus 6, 4, 2 and 0 minutes and a timespan of 180 seconds: the index is 2. -/
theorem StartIndexFor_suffix_eq_window_witness :
    [sample (-360 * Second) none 200, sample (-240 * Second) none 200,
      sample (-120 * Second) none 200, sample 0 none 200].Pairwise
        (fun a b => a.Date ≤ b.Date) ∧
    durationFits 180 ∧
    StartIndexFor 0 [sample (-360 * Second) none 200, sample (-240 * Second) none 200,
      sample (-120 * Second) none 200, sample 0 none 200] 180 = some 2 ∧
    ∃ i, StartIndexFor 0 [sample (-360 * Second) none 200, sample (-240 * Second) none 200,
        sample (-120 * Second) none 200, sample 0 none 200] 180 = some i ∧
      [sample (-360 * Second) none 200, sample (-240 * Second) none 200,
        sample (-120 * Second) none 200, sample 0 none 200].drop i =
      [sample (-360 * Second) none 200, sample (-240 * Second) none 200,
        sample (-120 * Second) none 200, sample 0 none 200].filter
          (fun r => decide (0 - 180 * Second ≤ r.Date)) ∧
      ([sample (-360 * Second) none 200, sample (-240 * Second) none 200,
        sample (-120 * Second) none 200, sample 0 none 200].filter
          (fun r => decide (0 - 180 * Second ≤ r.Date)) ≠ [] →
        ∃ r, [sample (-360 * Second) none 200, sample (-240 * Second) none 200,
            sample (-120 * Second) none 200, sample 0 none 200][i]? = some r ∧
          0 - 180 * Second ≤ r.Date ∧
          ∀ j r', j < i → [sample (-360 * Second) none 200, sample (-240 * Second) none 200,
            sample (-120 * Second) none 200, sample 0 none 200][j]? = some r' →
            r'.Date < 0 - 180 * Second) :=
  ⟨by decide, by decide, by decide,
    StartIndexFor_suffix_eq_window 0 _ 180 (by decide) (by decide)⟩

/-- C2 as stated fails when the duration overflows: for a timespan of 9223372037
seconds the suffix the code selects in a sorted log of two entries is empty, while
both entries are dated after `now - timespan` seconds. -/
theorem StartIndexFor_suffix_overflow :
    [sample 0 none 200, sample 1 none 200].Pairwise (fun a b => a.Date ≤ b.Date) ∧
    StartIndexFor 1 [sample 0 none 200, sample 1 none 200] 9223372037 = some 2 ∧
    [sample 0 none 200, sample 1 none 200].drop 2 ≠
      [sample 0 none 200, sample 1 none 200].filter
        (fun r => decide (1 - 9223372037 * Second ≤ r.Date)) :=
  ⟨by decide, by decide, by decide⟩

end Daemon

theorem GoMap.find_insert_self {K V : Type} [DecidableEq K] (m : List (K × V)) (k : K) (v : V) :
    GoMap.find (GoMap.insert m k v) k = some v := by
  induction m with
  | nil => simp [GoMap.insert, GoMap.find]
  | cons e m ih =>
    obtain ⟨k', v'⟩ := e
    by_cases h : k' = k
    · simp [GoMap.insert, GoMap.find, h]
    · simp [GoMap.insert, GoMap.find, h, ih]

theorem GoMap.find_insert_ne {K V : Type} [DecidableEq K] (m : List (K × V)) (k k' : K) (v : V)
    (hne : k ≠ k') : GoMap.find (GoMap.insert m k v) k' = GoMap.find m k' := by
  induction m with
  | nil => simp [GoMap.insert, GoMap.find, hne]
  | cons e m ih =>
    obtain ⟨k0, v0⟩ := e
    by_cases h : k0 = k
    · subst h
      simp [GoMap.insert, GoMap.find, hne]
    · by_cases h' : k0 = k'
      · subst h'
        have hk : ¬ (k0 = k) := h
        simp [GoMap.insert, GoMap.find, hk]
      · simp [GoMap.insert, GoMap.find, h, h', ih]

theorem GoMap.get?_set_self {K V : Type} [DecidableEq K] (m : GoMap K V) (k : K) (v : V) :
    (m.set k v).get? k = some v :=
  GoMap.find_insert_self m.entries k v

theorem GoMap.get?_set_ne {K V : Type} [DecidableEq K] (m : GoMap K V) (k k' : K) (v : V)
    (hne : k ≠ k') : (m.set k v).get? k' = m.get? k' :=
  GoMap.find_insert_ne m.entries k k' v hne

theorem GoMap.get?_empty {K V : Type} [DecidableEq K] (k : K) :
    (GoMap.empty : GoMap K V).get? k = none := rfl

/-- Reading a tally: after `m[key r]++` for the elements `r` of `l` that have a
key, the entry of `k` is its entry before plus the number of elements of key `k`,
and is untouched when there is none. -/
theorem GoMap.get?_tally {α K : Type} [DecidableEq K] (key : α → Option K) (k : K) :
    ∀ (l : List α) (m : GoMap K Int),
      (l.foldl (fun m r => (key r).elim m (fun k' => m.incr k')) m).get? k =
        if l.countP (fun r => decide (key r = some k)) = 0 then m.get? k
        else some ((m.get? k).getD 0 + (l.countP (fun r => decide (key r = some k)) : Int)) := by
  intro l
  induction l with
  | nil => intro m; simp
  | cons r l ih =>
    intro m
    rw [List.foldl_cons, ih, List.countP_cons]
    cases hk : key r with
    | none => simp
    | some k0 =>
      by_cases h : k0 = k
      · subst h
        have hs : (m.incr k0).get? k0 = some ((m.get? k0).getD 0 + 1) :=
          GoMap.get?_set_self m k0 _
        by_cases hc : l.countP (fun r => decide (key r = some k0)) = 0
        · simp [hs, hc]
        · simp [hs, hc]
          omega
      · have hs : (m.incr k0).get? k = m.get? k := GoMap.get?_set_ne m k0 k _ h
        simp [hs, h]

theorem foldl_count {α : Type} (p : α → Bool) :
    ∀ (l : List α) (c : Int),
      l.foldl (fun (c : Int) r => if p r then c + 1 else c) c = c + (l.countP p : Int) := by
  intro l
  induction l with
  | nil => intro c; simp
  | cons r l ih =>
    intro c
    rw [List.foldl_cons, ih, List.countP_cons]
    by_cases h : p r <;> simp [h]
    omega

namespace Daemon

theorem CountCodes_eq (t : TraceResults) (s : Nat) :
    CountCodes t s = some ((t.drop s).foldl (fun m r =>
      (if r.StatusCode ≠ 0 then some r.StatusCode else none).elim m (fun k' => m.incr k'))
      GoMap.empty) := by
  unfold CountCodes
  rw [forFrom_eq_foldl t _ _ s _ rfl]
  congr 2
  funext m r
  by_cases h : r.StatusCode = 0 <;> simp [h]

theorem CountErrors_eq (t : TraceResults) (s : Nat) :
    CountErrors t s = some ((t.drop s).foldl (fun m r =>
      (r.Error.map GoError.Error).elim m (fun k' => m.incr k')) GoMap.empty) := by
  unfold CountErrors
  rw [forFrom_eq_foldl t _ _ s _ rfl]
  congr 2
  funext m r
  cases r.Error <;> rfl

theorem Availability_eq (t : TraceResults) (s : Nat) :
    Availability t s = some (float64Div ((t.drop s).countP TraceResult.IsValid : Nat)
      ((t.length : Int) - (s : Int))) := by
  unfold Availability
  rw [forFrom_eq_foldl t _ _ s _ rfl, foldl_count]
  simp

end Daemon

theorem GoMap.keys_insert {K V : Type} [DecidableEq K] (k : K) (v : V) :
    ∀ m : List (K × V), (GoMap.insert m k v).map Prod.fst =
      if k ∈ m.map Prod.fst then m.map Prod.fst else m.map Prod.fst ++ [k] := by
  intro m
  induction m with
  | nil => simp [GoMap.insert]
  | cons e m ih =>
    obtain ⟨k', v'⟩ := e
    by_cases h : k' = k
    · subst h
      simp [GoMap.insert]
    · have hne : ¬ (k = k') := fun e => h e.symm
      simp only [GoMap.insert, h, if_false, List.map_cons, ih, List.mem_cons, hne, false_or]
      split <;> simp

theorem GoMap.nodup_insert {K V : Type} [DecidableEq K] (m : List (K × V)) (k : K) (v : V)
    (h : (m.map Prod.fst).Nodup) : ((GoMap.insert m k v).map Prod.fst).Nodup := by
  rw [GoMap.keys_insert]
  split
  · exact h
  · rename_i hk
    rw [List.nodup_append]
    refine ⟨h, List.nodup_singleton k, ?_⟩
    intro x hx hx'
    rw [List.mem_singleton] at hx'
    exact hk (hx' ▸ hx)

theorem GoMap.nodup_tally {α K : Type} [DecidableEq K] (key : α → Option K) :
    ∀ (l : List α) (m : GoMap K Int), (m.entries.map Prod.fst).Nodup →
      ((l.foldl (fun m r => (key r).elim m (fun k' => m.incr k')) m).entries.map
        Prod.fst).Nodup := by
  intro l
  induction l with
  | nil => intro m h; exact h
  | cons r l ih =>
    intro m h
    rw [List.foldl_cons]
    apply ih
    cases key r with
    | none => exact h
    | some k => exact GoMap.nodup_insert m.entries k _ h

namespace Daemon

/-- C3: for every log, sorted or not, and every timespan, `StartIndexFor` (of the
daemon and of the agent) returns an index `i <= len(t)`, so the loops
`for j := i; j < len(t); j++` of `CountCodes`, `CountErrors` and `Availability`
read no index out of range; it returns `0` on the empty log and `len(t)` when every
entry is older than the threshold. -/
theorem StartIndexFor_in_range (now : Int) (t : TraceResults) (t' : Agent.TraceResults)
    (timespan : Int) :
    (∃ i, StartIndexFor now t timespan = some i ∧ i ≤ t.length ∧
      ∃ codes errors avail, CountCodes t i = some codes ∧ CountErrors t i = some errors ∧
        Availability t i = some avail) ∧
    StartIndexFor now [] timespan = some 0 ∧
    ((∀ r ∈ t, r.Date < threshold now timespan) →
      StartIndexFor now t timespan = some t.length) ∧
    (∃ i, Agent.startIndexFor now t' timespan = some i ∧ i ≤ t'.length) ∧
    Agent.startIndexFor now [] timespan = some 0 ∧
    ((∀ r ∈ t', r.Date < threshold now timespan) →
      Agent.startIndexFor now t' timespan = some t'.length) := by
  refine ⟨?_, rfl, StartIndexFor.loop_all_old t _, ?_, rfl, Agent.startIndexFor.loop_expired t' _⟩
  · obtain ⟨i, hi, hle, _, _⟩ :=
      StartIndexFor.loop_spec t (threshold now timespan) t.length (le_refl _)
    exact ⟨i, hi, hle, _, _, _, CountCodes_eq t i, CountErrors_eq t i, Availability_eq t i⟩
  · obtain ⟨i, hi, hle⟩ :=
      Agent.startIndexFor.loop_le t' (threshold now timespan) t'.length (le_refl _)
    exact ⟨i, hi, hle⟩


/-- C4 (amended): for a start index `s < len(t)`, `Availability(s)` is the number of
valid entries of `t[s:]` divided by `len(t) - s`, rounded to the nearest `float64`:
the division rounds the quotient of the two conversions, which are exact for a log
of fewer than `2^53` entries, and the result is then within the relative error
`2^-53` of the quotient. The result lies between 0 and 1, and an entry is valid
when its error is nil and its status code is below 400. -/
theorem Availability_rounded_ratio (t : TraceResults) (s : Nat) (hs : s < t.length) :
    Availability t s =
      some (F64.num (roundF64
        (roundF64 ((t.drop s).countP TraceResult.IsValid : ℚ) /
          roundF64 ((t.length - s : Nat) : ℚ)))) ∧
    (t.length < 2 ^ 53 →
      Availability t s =
        some (F64.num (roundF64
          (((t.drop s).countP TraceResult.IsValid : ℚ) / ((t.length - s : Nat) : ℚ)))) ∧
      |roundF64 (((t.drop s).countP TraceResult.IsValid : ℚ) / ((t.length - s : Nat) : ℚ)) -
          ((t.drop s).countP TraceResult.IsValid : ℚ) / ((t.length - s : Nat) : ℚ)| ≤
        ((t.drop s).countP TraceResult.IsValid : ℚ) / ((t.length - s : Nat) : ℚ) *
          2 ^ (-53 : Int)) ∧
    (0 : ℚ) ≤ roundF64
        (roundF64 ((t.drop s).countP TraceResult.IsValid : ℚ) /
          roundF64 ((t.length - s : Nat) : ℚ)) ∧
    roundF64
        (roundF64 ((t.drop s).countP TraceResult.IsValid : ℚ) /
          roundF64 ((t.length - s : Nat) : ℚ)) ≤ 1 ∧
    (∀ r : TraceResult, r.IsValid = true ↔ (r.Error = none ∧ r.StatusCode < 400)) := by
  have hpos : 0 < t.length - s := by omega
  have hle : (t.drop s).countP TraceResult.IsValid ≤ t.length - s := by
    have := List.countP_le_length (p := TraceResult.IsValid) (l := t.drop s)
    simpa using this
  have hcast : ((t.length : Int) - (s : Int)) = ((t.length - s : Nat) : Int) := by omega
  obtain ⟨hdiv, h0, h1⟩ := float64Div_unit _ _ hle hpos
  have hA : Availability t s =
      some (F64.num (roundF64
        (roundF64 ((t.drop s).countP TraceResult.IsValid : ℚ) /
          roundF64 ((t.length - s : Nat) : ℚ)))) := by
    rw [Availability_eq, hcast, hdiv]
  refine ⟨hA, ?_, h0, h1, ?_⟩
  · intro hlen
    have e1 : roundF64 ((t.drop s).countP TraceResult.IsValid : ℚ) =
        ((t.drop s).countP TraceResult.IsValid : ℚ) := roundF64_natCast _ (by omega)
    have e2 : roundF64 ((t.length - s : Nat) : ℚ) = ((t.length - s : Nat) : ℚ) :=
      roundF64_natCast _ (by omega)
    refine ⟨by rw [hA, e1, e2], roundF64_error ?_⟩
    exact div_nonneg (Nat.cast_nonneg _) (Nat.cast_nonneg _)
  · intro r
    simp [TraceResult.IsValid]

/-- The statement of C4 at the status codes 200, 200, 503 and an error "timeout":
the availability is 1/2, which is a `float64`. -/
theorem Availability_rounded_ratio_witness :
    (0 < [sample 0 none 200, sample 0 none 200, sample 0 none 503,
        sample 0 (some ⟨"timeout", 0⟩) 0].length) ∧
    Availability [sample 0 none 200, sample 0 none 200, sample 0 none 503,
        sample 0 (some ⟨"timeout", 0⟩) 0] 0 = some (F64.num (1 / 2)) := by
  refine ⟨by decide, ?_⟩
  have hq : ((([sample 0 none 200, sample 0 none 200, sample 0 none 503,
      sample 0 (some ⟨"timeout", 0⟩) 0].drop 0).countP TraceResult.IsValid : Nat) : ℚ) /
      ((([sample 0 none 200, sample 0 none 200, sample 0 none 503,
        sample 0 (some ⟨"timeout", 0⟩) 0].length - 0 : Nat) : Nat) : ℚ) = 1 / 2 := by
    have h1 : ([sample 0 none 200, sample 0 none 200, sample 0 none 503,
      sample 0 (some ⟨"timeout", 0⟩) 0].drop 0).countP TraceResult.IsValid = 2 := by decide
    rw [h1]
    norm_num
  rw [((Availability_rounded_ratio [sample 0 none 200, sample 0 none 200, sample 0 none 503,
        sample 0 (some ⟨"timeout", 0⟩) 0] 0 (by decide)).2.1 (by norm_num)).1, hq,
    roundF64_half]

/-- C4 as stated fails where the quotient is no `float64`: of three results one is
valid, and the availability is the `float64` nearest to 1/3,
6004799503160661 / 2^54, not the rational 1/3. -/
theorem Availability_third_rounded :
    (0 < [sample 0 none 200, sample 0 none 500, sample 0 none 500].length) ∧
    Availability [sample 0 none 200, sample 0 none 500, sample 0 none 500] 0 =
      some (F64.num (6004799503160661 / 18014398509481984)) ∧
    Availability [sample 0 none 200, sample 0 none 500, sample 0 none 500] 0 ≠
      some (F64.num
        (((([sample 0 none 200, sample 0 none 500, sample 0 none 500].drop 0).countP
            TraceResult.IsValid : Nat) : ℚ) /
          ((([sample 0 none 200, sample 0 none 500, sample 0 none 500].length - 0 : Nat) :
            Nat) : ℚ))) := by
  have h1 : ([sample 0 none 200, sample 0 none 500, sample 0 none 500].drop 0).countP
      TraceResult.IsValid = 1 := by decide
  have hA : Availability [sample 0 none 200, sample 0 none 500, sample 0 none 500] 0 =
      some (F64.num (6004799503160661 / 18014398509481984)) := by
    rw [Availability_eq, h1]
    have hd : float64Div ((1 : Nat) : Int)
        ((([sample 0 none 200, sample 0 none 500, sample 0 none 500] : TraceResults).length :
          Int) - ((0 : Nat) : Int)) = float64Div 1 3 := by
      norm_num
    rw [hd]
    have h3 : roundF64 (3 : ℚ) = 3 := by
      have := roundF64_natCast 3 (by norm_num)
      simpa using this
    simp only [float64Div, Int.cast_one, Int.cast_ofNat, roundF64_one, h3]
    norm_num
    exact roundF64_third
  refine ⟨by decide, hA, ?_⟩
  rw [hA, h1]
  intro h
  have h' := F64.num.inj (Option.some.inj h)
  norm_num at h'

/-- C5: what the code does on the empty window. `Availability(len(t))` runs without
a fault and its value is `float64(0) / float64(0)`, NaN: the division has no guard
and the value is no number, between 0 and 1 or other. The alert rule takes neither
branch on it, whatever the threshold and the flag. -/
theorem Availability_empty_window :
    Availability [] 0 = some F64.nan ∧
    (∀ t : TraceResults, Availability t t.length = some F64.nan) ∧
    (∀ (q : ℚ), F64.nan ≠ F64.num q) ∧
    (∀ (now : Int) (threshold : F64) (d : Bool), alertRule now F64.nan threshold d = none) := by
  refine ⟨by decide, ?_, ?_, ?_⟩
  · intro t
    rw [Availability_eq]
    simp [float64Div]
  · intro q h
    cases h
  · intro now threshold d
    cases threshold <;> cases d <;> rfl

/-- C8: the map of `CountCodes(s)` has one entry a key, none for the status code 0,
and for a code `c` other than 0 its entry is the number of entries of `t[s:]` of
status code `c`, a code that does not occur having no entry. The status codes 200,
200, 503, 0 give the map of 200 to 2 and 503 to 1. -/
theorem CountCodes_tally (t : TraceResults) (s : Nat) :
    (∃ codes, CountCodes t s = some codes ∧ (codes.entries.map Prod.fst).Nodup ∧
      codes.get? 0 = none ∧
      ∀ c : Int, c ≠ 0 →
        codes.get? c =
          if (t.drop s).countP (fun r => decide (r.StatusCode = c)) = 0 then none
          else some (((t.drop s).countP (fun r => decide (r.StatusCode = c)) : Nat) : Int)) ∧
    CountCodes [sample 0 none 200, sample 0 none 200, sample 0 none 503,
      sample 0 (some ⟨"timeout", 0⟩) 0] 0 = some ⟨[(200, 2), (503, 1)]⟩ := by
  refine ⟨⟨_, CountCodes_eq t s, GoMap.nodup_tally _ _ _ List.nodup_nil, ?_, ?_⟩, by decide⟩
  · refine (GoMap.get?_tally
      (fun r : TraceResult => if r.StatusCode ≠ 0 then some r.StatusCode else none) 0 _ _).trans ?_
    have h0 : (t.drop s).countP (fun r =>
        decide ((if r.StatusCode ≠ 0 then some r.StatusCode else none) = some 0)) = 0 := by
      rw [List.countP_eq_zero]
      intro r _
      by_cases h : r.StatusCode = 0 <;> simp [h]
    rw [h0]
    rfl
  · intro c hc
    rw [GoMap.get?_tally]
    have hfun : (fun r : TraceResult =>
        decide ((if r.StatusCode ≠ 0 then some r.StatusCode else none) = some c)) =
        (fun r => decide (r.StatusCode = c)) := by
      funext r
      by_cases h : r.StatusCode = 0
      · have : ¬ (0 = c) := fun e => hc e.symm
        simp [h, this]
      · simp [h]
    rw [hfun]
    simp [GoMap.get?_empty]

/-- C9: the map of `CountErrors(s)` has one entry a key, and for a text `e` its entry
is the number of entries of `t[s:]` whose error is not nil and has the text `e`, a
text that does not occur having no entry. One error "timeout" among four results
gives the map of "timeout" to 1, and two distinct errors of the same text are
counted under one key. -/
theorem CountErrors_tally (t : TraceResults) (s : Nat) :
    (∃ errors, CountErrors t s = some errors ∧ (errors.entries.map Prod.fst).Nodup ∧
      ∀ e : String,
        errors.get? e =
          if (t.drop s).countP (fun r => match r.Error with
              | some error => decide (error.Error = e)
              | none => false) = 0 then none
          else some (((t.drop s).countP (fun r => match r.Error with
              | some error => decide (error.Error = e)
              | none => false) : Nat) : Int)) ∧
    CountErrors [sample 0 none 200, sample 0 none 200, sample 0 none 503,
      sample 0 (some ⟨"timeout", 0⟩) 0] 0 = some ⟨[("timeout", 1)]⟩ ∧
    CountErrors [sample 0 (some ⟨"timeout", 1⟩) 0, sample 0 (some ⟨"timeout", 2⟩) 0] 0 =
      some ⟨[("timeout", 2)]⟩ := by
  refine ⟨⟨_, CountErrors_eq t s, GoMap.nodup_tally _ _ _ List.nodup_nil, ?_⟩, by decide, by decide⟩
  intro e
  refine (GoMap.get?_tally (fun r : TraceResult => r.Error.map GoError.Error) e _ _).trans ?_
  have hfun : (fun r : TraceResult => decide (r.Error.map GoError.Error = some e)) =
      (fun r => match r.Error with
        | some error => decide (error.Error = e)
        | none => false) := by
    funext r
    cases r.Error <;> simp
  rw [hfun]
  simp [GoMap.get?_empty]

/-- C10: `Availability`, `CountCodes` and `CountErrors` depend on the window only:
they agree on two logs and start indices, each at most the length of its log,
whose suffixes are equal; so dropping `k <= s` entries from the front of the log and
starting at `s - k` changes nothing. -/
theorem aggregation_of_window (t₁ t₂ : TraceResults) (s₁ s₂ : Nat)
    (h₁ : s₁ ≤ t₁.length) (h₂ : s₂ ≤ t₂.length) (hwin : t₁.drop s₁ = t₂.drop s₂) :
    (Availability t₁ s₁ = Availability t₂ s₂ ∧ CountCodes t₁ s₁ = CountCodes t₂ s₂ ∧
      CountErrors t₁ s₁ = CountErrors t₂ s₂) ∧
    (∀ k, k ≤ s₁ →
      Availability (t₁.drop k) (s₁ - k) = Availability t₁ s₁ ∧
      CountCodes (t₁.drop k) (s₁ - k) = CountCodes t₁ s₁ ∧
      CountErrors (t₁.drop k) (s₁ - k) = CountErrors t₁ s₁) := by
  have key : ∀ (a b : TraceResults) (i j : Nat), i ≤ a.length → j ≤ b.length →
      a.drop i = b.drop j →
      Availability a i = Availability b j ∧ CountCodes a i = CountCodes b j ∧
        CountErrors a i = CountErrors b j := by
    intro a b i j hi hj hab
    have hlen : (a.length : Int) - (i : Int) = (b.length : Int) - (j : Int) := by
      have := congrArg List.length hab
      simp only [List.length_drop] at this
      omega
    refine ⟨?_, ?_, ?_⟩
    · rw [Availability_eq, Availability_eq, hab, hlen]
    · rw [CountCodes_eq, CountCodes_eq, hab]
    · rw [CountErrors_eq, CountErrors_eq, hab]
  refine ⟨key t₁ t₂ s₁ s₂ h₁ h₂ hwin, ?_⟩
  intro k hk
  refine key (t₁.drop k) t₁ (s₁ - k) s₁ ?_ h₁ ?_
  · simp only [List.length_drop]; omega
  · rw [List.drop_drop]
    congr 1
    omega

/-- The statement of C10 at a log of two entries read from index 1 and the log of
its last entry read from index 0. -/
theorem aggregation_of_window_witness :
    (1 ≤ [sample 0 none 500, sample 1 none 200].length ∧
      0 ≤ [sample 1 none 200].length ∧
      [sample 0 none 500, sample 1 none 200].drop 1 = [sample 1 none 200].drop 0) ∧
    Availability [sample 0 none 500, sample 1 none 200] 1 = Availability [sample 1 none 200] 0 ∧
    CountCodes [sample 0 none 500, sample 1 none 200] 1 = CountCodes [sample 1 none 200] 0 ∧
    CountErrors [sample 0 none 500, sample 1 none 200] 1 = CountErrors [sample 1 none 200] 0 :=
  ⟨⟨by decide, by decide, by decide⟩,
    (aggregation_of_window [sample 0 none 500, sample 1 none 200] [sample 1 none 200] 1 0
      (by decide) (by decide) (by decide)).1⟩


theorem Website.Availability_isSome (now : Int) (website : Website) (timespan : Int) :
    ∃ a, website.Availability now timespan = some a := by
  obtain ⟨i, hi, _⟩ := StartIndexFor.loop_spec website.TraceResults (threshold now timespan)
    website.TraceResults.length (le_refl _)
  have h : website.Availability now timespan =
      some (float64Div ((website.TraceResults.drop i).countP TraceResult.IsValid : Nat)
        ((website.TraceResults.length : Int) - (i : Int))) := by
    unfold Website.Availability StartIndexFor
    simp only [hi, Option.some_bind]
    exact Availability_eq _ i
  exact ⟨_, h⟩

theorem Websites.Alerts.turn_eq (now timespan : Int) (threshold : F64)
    (alerts : GoMap String Alert) (ws : Websites) (i : Nat) (website : Website)
    (hget : ws[i]? = some website) :
    Websites.Alerts.turn now timespan threshold (alerts, ws) i =
      some (Websites.Alerts.stored now timespan threshold alerts website,
        ws.set i (Websites.Alerts.flagged now timespan threshold website)) := by
  obtain ⟨a, ha⟩ := Website.Availability_isSome now website timespan
  have hself : ws.set i website = ws := by
    apply List.ext_getElem?
    intro j
    by_cases hj : i = j
    · subst hj
      rw [List.getElem?_set_self (List.getElem?_eq_some_iff.mp hget).1, hget]
    · rw [List.getElem?_set_ne hj]
  unfold Websites.Alerts.turn Websites.Alerts.stored Websites.Alerts.flagged
  simp only [hget, Option.some_bind, ha, Option.map_some']
  cases alertRule now a threshold website.DownAlertSent with
  | none => simp [hself]
  | some p => rfl

theorem set_append_cons {α : Type} (x : α) :
    ∀ (l₁ : List α) (a : α) (l₂ : List α) (n : Nat), l₁.length = n →
      (l₁ ++ a :: l₂)[n]? = some a ∧ (l₁ ++ a :: l₂).set n x = l₁ ++ x :: l₂ := by
  intro l₁
  induction l₁ with
  | nil => intro a l₂ n hn; subst hn; simp
  | cons b l₁ ih =>
    intro a l₂ n hn
    subst hn
    obtain ⟨h1, h2⟩ := ih a l₂ l₁.length rfl
    refine ⟨?_, ?_⟩
    · show (b :: (l₁ ++ a :: l₂))[l₁.length + 1]? = some a
      rw [List.getElem?_cons_succ]
      exact h1
    · show (b :: (l₁ ++ a :: l₂)).set (l₁.length + 1) x = b :: (l₁ ++ x :: l₂)
      rw [List.set_cons_succ, h2]

theorem Websites.Alerts.written_step (f : Website → Website) (w : Websites) (n : Nat)
    (hn : n < w.length) :
    ((w.take n).map f ++ w.drop n)[n]? = some w[n] ∧
    ((w.take n).map f ++ w.drop n).set n (f w[n]) =
      (w.take (n + 1)).map f ++ w.drop (n + 1) := by
  have hlen : ((w.take n).map f).length = n := by
    simp [List.length_take, Nat.min_eq_left (Nat.le_of_lt hn)]
  have hdrop : w.drop n = w[n] :: w.drop (n + 1) := List.drop_eq_getElem_cons hn
  have htake : w.take (n + 1) = w.take n ++ [w[n]] := by
    rw [List.take_succ, List.getElem?_eq_getElem hn]; rfl
  obtain ⟨h1, h2⟩ := set_append_cons (f w[n]) ((w.take n).map f) w[n] (w.drop (n + 1)) n hlen
  rw [hdrop, htake, List.map_append, List.append_assoc]
  exact ⟨h1, h2⟩

theorem Websites.Alerts.loop_eq (now timespan : Int) (threshold : F64) (w : Websites) :
    ∀ (k n : Nat) (alerts : GoMap String Alert), n + k = w.length →
      (List.range' n k).foldlM (Websites.Alerts.turn now timespan threshold)
          (alerts, (w.take n).map (Websites.Alerts.flagged now timespan threshold) ++ w.drop n) =
        some ((w.drop n).foldl (Websites.Alerts.stored now timespan threshold) alerts,
          w.map (Websites.Alerts.flagged now timespan threshold)) := by
  intro k
  induction k with
  | zero =>
    intro n alerts hn
    have hn' : n = w.length := by omega
    subst hn'
    simp
  | succ k ih =>
    intro n alerts hn
    have hlt : n < w.length := by omega
    obtain ⟨hget, hset⟩ :=
      Websites.Alerts.written_step (Websites.Alerts.flagged now timespan threshold) w n hlt
    rw [List.range'_succ, List.foldlM_cons,
      Websites.Alerts.turn_eq now timespan threshold alerts _ n w[n] hget, hset]
    simp only [Option.bind_eq_bind, Option.some_bind]
    rw [ih (n + 1) _ (by omega), List.drop_eq_getElem_cons hlt, List.foldl_cons]

theorem Websites.Alerts_eq (now : Int) (w : Websites) (timespan : Int) (threshold : F64) :
    Websites.Alerts now w timespan threshold =
      some (w.foldl (Websites.Alerts.stored now timespan threshold) GoMap.empty,
        w.map (Websites.Alerts.flagged now timespan threshold)) := by
  have h := Websites.Alerts.loop_eq now timespan threshold w w.length 0 GoMap.empty (by omega)
  simp only [List.take_zero, List.map_nil, List.nil_append, List.drop_zero] at h
  unfold Websites.Alerts
  rw [List.range_eq_range']
  exact h

theorem Websites.Alerts.stored_get?_of_ne (now timespan : Int) (threshold : F64) (u : String) :
    ∀ (l : Websites) (alerts : GoMap String Alert), (∀ x ∈ l, x.URL ≠ u) →
      (l.foldl (Websites.Alerts.stored now timespan threshold) alerts).get? u =
        alerts.get? u := by
  intro l
  induction l with
  | nil => intro alerts _; rfl
  | cons x l ih =>
    intro alerts hne
    rw [List.foldl_cons, ih _ (fun y hy => hne y (List.mem_cons_of_mem _ hy))]
    have hx : x.URL ≠ u := hne x (List.mem_cons_self _ _)
    unfold Websites.Alerts.stored
    split
    · split
      · exact GoMap.get?_set_ne _ _ _ _ hx
      · rfl
    · rfl


theorem Websites.Alerts.stored_get?_congr (now timespan : Int) (threshold : F64)
    (website : Website) (x y : GoMap String Alert)
    (h : x.get? website.URL = y.get? website.URL) :
    (Websites.Alerts.stored now timespan threshold x website).get? website.URL =
      (Websites.Alerts.stored now timespan threshold y website).get? website.URL := by
  unfold Websites.Alerts.stored
  split
  · split
    · rw [GoMap.get?_set_self, GoMap.get?_set_self]
    · exact h
  · exact h

theorem Websites.Alerts.stored_get?_unique (now timespan : Int) (threshold : F64)
    (w : Websites) (i : Nat) (website : Website) (hget : w[i]? = some website)
    (huniq : ∀ (j : Nat) (website' : Website), w[j]? = some website' →
      website'.URL = website.URL → j = i) :
    (w.foldl (Websites.Alerts.stored now timespan threshold) GoMap.empty).get? website.URL =
      (Websites.Alerts.stored now timespan threshold GoMap.empty website).get? website.URL := by
  obtain ⟨hi, hw⟩ := List.getElem?_eq_some_iff.mp hget
  have hsplit : w = w.take i ++ website :: w.drop (i + 1) := by
    rw [← hw, ← List.drop_eq_getElem_cons hi, List.take_append_drop]
  have hbefore : ∀ x ∈ w.take i, x.URL ≠ website.URL := by
    intro x hx hurl
    obtain ⟨j, hj⟩ := List.mem_iff_getElem?.mp hx
    rw [List.getElem?_take] at hj
    split at hj
    · have := huniq j x hj hurl
      omega
    · cases hj
  have hafter : ∀ x ∈ w.drop (i + 1), x.URL ≠ website.URL := by
    intro x hx hurl
    obtain ⟨j, hj⟩ := List.mem_iff_getElem?.mp hx
    rw [List.getElem?_drop] at hj
    have := huniq _ x hj hurl
    omega
  have h0 : (List.foldl (Websites.Alerts.stored now timespan threshold) GoMap.empty
      (w.take i)).get? website.URL = none :=
    Websites.Alerts.stored_get?_of_ne now timespan threshold website.URL _ _ hbefore
  conv_lhs => rw [hsplit]
  rw [List.foldl_append, List.foldl_cons,
    Websites.Alerts.stored_get?_of_ne now timespan threshold website.URL _ _ hafter]
  exact Websites.Alerts.stored_get?_congr now timespan threshold website _ _ (h0.trans rfl)

/-- C6 (amended): one evaluation of `Alerts` returns, and for each website of the
list, of availability `a` and flag `d`: when `a < threshold` and `d` is false the
flag becomes true; when `a >= threshold` and `d` is true the flag becomes false; in
every other case the website is unchanged. When no other website of the list has
the same URL, the map of alerts holds under that URL, in the three cases, the alert
of `a` with `BelowThreshold` true, the alert of `a` with `BelowThreshold` false, and
no entry. -/
theorem Alerts_rule_per_website (now : Int) (w : Websites) (timespan : Int) (threshold : F64) :
    ∃ alerts w', Websites.Alerts now w timespan threshold = some (alerts, w') ∧
      w'.length = w.length ∧
      ∀ (i : Nat) (website : Website), w[i]? = some website →
        ∃ a, website.Availability now timespan = some a ∧
          (a.lt threshold = true ∧ website.DownAlertSent = false →
            w'[i]? = some { website with DownAlertSent := true } ∧
            ((∀ (j : Nat) (website' : Website), w[j]? = some website' →
                website'.URL = website.URL → j = i) →
              alerts.get? website.URL = some (NewAlert now a true))) ∧
          (a.ge threshold = true ∧ website.DownAlertSent = true →
            w'[i]? = some { website with DownAlertSent := false } ∧
            ((∀ (j : Nat) (website' : Website), w[j]? = some website' →
                website'.URL = website.URL → j = i) →
              alerts.get? website.URL = some (NewAlert now a false))) ∧
          (¬ (a.lt threshold = true ∧ website.DownAlertSent = false) ∧
              ¬ (a.ge threshold = true ∧ website.DownAlertSent = true) →
            w'[i]? = some website ∧
            ((∀ (j : Nat) (website' : Website), w[j]? = some website' →
                website'.URL = website.URL → j = i) →
              alerts.get? website.URL = none)) := by
  refine ⟨_, _, Websites.Alerts_eq now w timespan threshold, by simp, ?_⟩
  intro i website hget
  obtain ⟨a, ha⟩ := Website.Availability_isSome now website timespan
  have hflag : (w.map (Websites.Alerts.flagged now timespan threshold))[i]? =
      some (Websites.Alerts.flagged now timespan threshold website) := by
    rw [List.getElem?_map, hget]; rfl
  refine ⟨a, ha, ?_, ?_, ?_⟩
  · rintro ⟨hlt, hd⟩
    have hrule : alertRule now a threshold website.DownAlertSent =
        some (NewAlert now a true, true) := by simp [alertRule, hlt, hd]
    refine ⟨?_, fun huniq => ?_⟩
    · rw [hflag]; simp [Websites.Alerts.flagged, ha, hrule]
    · rw [Websites.Alerts.stored_get?_unique now timespan threshold w i website hget huniq]
      simp [Websites.Alerts.stored, ha, hrule, GoMap.get?_set_self]
  · rintro ⟨hge, hd⟩
    have hrule : alertRule now a threshold website.DownAlertSent =
        some (NewAlert now a false, false) := by simp [alertRule, hge, hd]
    refine ⟨?_, fun huniq => ?_⟩
    · rw [hflag]; simp [Websites.Alerts.flagged, ha, hrule]
    · rw [Websites.Alerts.stored_get?_unique now timespan threshold w i website hget huniq]
      simp [Websites.Alerts.stored, ha, hrule, GoMap.get?_set_self]
  · rintro ⟨h1, h2⟩
    have hrule : alertRule now a threshold website.DownAlertSent = none := by
      unfold alertRule
      cases hd : website.DownAlertSent <;> simp_all
    refine ⟨?_, fun huniq => ?_⟩
    · rw [hflag]; simp [Websites.Alerts.flagged, ha, hrule]
    · rw [Websites.Alerts.stored_get?_unique now timespan threshold w i website hget huniq]
      simp [Websites.Alerts.stored, ha, hrule, GoMap.get?_empty]

/-- C6 as stated fails for two websites of one URL: the first, below the threshold,
stores a down alert under the URL; the second, above the threshold with its flag
false, takes neither branch, yet the map has an entry for its URL. -/
theorem Alerts_shared_url :
    ∃ alerts w', ∃ (website : Website), ∃ a,
      Websites.Alerts 0 [⟨"u", [sample 0 none 500], false⟩, ⟨"u", [sample 0 none 200], false⟩]
        60 (F64.num (9 / 10)) = some (alerts, w') ∧
      [(⟨"u", [sample 0 none 500], false⟩ : Website), ⟨"u", [sample 0 none 200], false⟩][1]? =
        some website ∧
      website.Availability 0 60 = some a ∧
      ¬ (a.lt (F64.num (9 / 10)) = true ∧ website.DownAlertSent = false) ∧
      ¬ (a.ge (F64.num (9 / 10)) = true ∧ website.DownAlertSent = true) ∧
      alerts.get? website.URL ≠ none := by
  have hA0 : Website.Availability 0 ⟨"u", [sample 0 none 500], false⟩ 60 = some (F64.num 0) := by
    simp [Website.Availability, StartIndexFor, StartIndexFor.loop, Availability, forFrom,
      sample, TraceResult.IsValid, float64Div, List.range', threshold, negDuration, wrapInt64,
      Second, roundF64_zero, roundF64_one]
  have hA1 : Website.Availability 0 ⟨"u", [sample 0 none 200], false⟩ 60 = some (F64.num 1) := by
    simp [Website.Availability, StartIndexFor, StartIndexFor.loop, Availability, forFrom,
      sample, TraceResult.IsValid, float64Div, List.range', threshold, negDuration, wrapInt64,
      Second, roundF64_zero, roundF64_one]
  have hlt0 : F64.lt (F64.num 0) (F64.num (9 / 10)) = true := by
    simp only [F64.lt, decide_eq_true_eq]; norm_num
  have hlt1 : F64.lt (F64.num 1) (F64.num (9 / 10)) = false := by
    simp only [F64.lt, decide_eq_false_iff_not]; norm_num
  refine ⟨_, _, _, _, Websites.Alerts_eq _ _ _ _, rfl, hA1, ?_, ?_, ?_⟩
  · simp [hlt1]
  · simp
  · simp [Websites.Alerts.stored, hA0, hA1, alertRule, hlt0, hlt1, GoMap.get?, GoMap.set,
      GoMap.insert, GoMap.find, GoMap.empty]


theorem alertRule_some (now : Int) (a threshold : F64) (d : Bool) (alert : Alert) (sent : Bool)
    (h : alertRule now a threshold d = some (alert, sent)) :
    sent = !d ∧ alert.BelowThreshold = sent := by
  unfold alertRule at h
  split at h
  · cases h
    cases d <;> simp_all [NewAlert]
  · split at h
    · cases h
      cases d <;> simp_all [NewAlert]
    · cases h

theorem alertRun_append (now : Int) (threshold : F64) :
    ∀ (l₁ l₂ : List F64) (d : Bool),
      alertRun now threshold d (l₁ ++ l₂) =
        alertRun now threshold d l₁ ++ alertRun now threshold (alertFlag now threshold d l₁) l₂ ∧
      alertFlag now threshold d (l₁ ++ l₂) =
        alertFlag now threshold (alertFlag now threshold d l₁) l₂ ∧
      (alertRun now threshold d l₁).length = l₁.length := by
  intro l₁
  induction l₁ with
  | nil => intro l₂ d; exact ⟨rfl, rfl, rfl⟩
  | cons a l₁ ih =>
    intro l₂ d
    cases hr : alertRule now a threshold d with
    | none =>
      obtain ⟨h1, h2, h3⟩ := ih l₂ d
      simp [alertRun, alertFlag, hr, h1, h2, h3]
    | some p =>
      obtain ⟨h1, h2, h3⟩ := ih l₂ p.2
      simp [alertRun, alertFlag, hr, h1, h2, h3]

theorem alertRun_step (now : Int) (threshold : F64) (d : Bool) (a : F64) (rest : List F64) :
    ∃ e, (alertRun now threshold d (a :: rest))[0]? = some e ∧
      (e.isSome = true ↔ alertFlag now threshold d [a] ≠ d) ∧
      ∀ alert, e = some alert → alert.BelowThreshold = alertFlag now threshold d [a] := by
  cases hr : alertRule now a threshold d with
  | none =>
    refine ⟨none, by simp [alertRun, hr], by simp [alertFlag, hr], ?_⟩
    intro alert h; cases h
  | some p =>
    obtain ⟨alert, sent⟩ := p
    obtain ⟨hs, hb⟩ := alertRule_some now a threshold d alert sent hr
    refine ⟨some alert, by simp [alertRun, hr], ?_, ?_⟩
    · simp [alertFlag, hr, hs]
    · intro alert' h
      cases h
      simp [alertFlag, hr, hb]

theorem alertRun_flags_alternate (now : Int) (threshold : F64) :
    ∀ (avs : List F64) (d : Bool),
      (∀ (k : Nat) (b : Bool),
        (((alertRun now threshold d avs).filterMap id).map Alert.BelowThreshold)[k]? = some b →
          b = if k % 2 = 0 then !d else d) ∧
      List.Chain (· ≠ ·) d
        (((alertRun now threshold d avs).filterMap id).map Alert.BelowThreshold) := by
  intro avs
  induction avs with
  | nil =>
    intro d
    exact ⟨fun k b h => by simp [alertRun] at h, by simp [alertRun]⟩
  | cons a rest ih =>
    intro d
    cases hr : alertRule now a threshold d with
    | none =>
      obtain ⟨h1, h2⟩ := ih d
      have hrun : alertRun now threshold d (a :: rest) = none :: alertRun now threshold d rest := by
        simp [alertRun, hr]
      rw [hrun]
      simpa using And.intro h1 h2
    | some p =>
      obtain ⟨alert, sent⟩ := p
      obtain ⟨hs, hb⟩ := alertRule_some now a threshold d alert sent hr
      obtain ⟨h1, h2⟩ := ih sent
      have hrun : alertRun now threshold d (a :: rest) =
          some alert :: alertRun now threshold sent rest := by
        simp [alertRun, hr]
      rw [hrun]
      simp only [List.filterMap_cons, id, List.map_cons, hb]
      refine ⟨?_, ?_⟩
      · intro k b hk
        cases k with
        | zero => simp at hk; simp [← hk, hs]
        | succ k =>
          rw [List.getElem?_cons_succ] at hk
          have := h1 k b hk
          rw [this, hs]
          by_cases hk2 : k % 2 = 0
          · have : (k + 1) % 2 ≠ 0 := by omega
            simp [hk2, this]
          · have : (k + 1) % 2 = 0 := by omega
            simp [hk2, this]
      · refine List.Chain.cons ?_ h2
        rw [hs]; cases d <;> simp

/-- C7: for a target whose flag starts false and any sequence of availabilities,
evaluation `k` emits an alert exactly when the flag changes at that evaluation, and
the alert carries the new flag; the emitted alerts alternate down, up, down, ...,
beginning with down, no two consecutive ones with the same `BelowThreshold`. The
availabilities 1, 0.5, 0.5, 1, 1 with threshold 0.9 emit a down alert at the first
0.5, an up alert at the next 1, and nothing else. -/
theorem alerts_only_on_transitions (now : Int) (threshold : F64) (avs : List F64) :
    (∀ (k : Nat) (e : Option Alert), (alertRun now threshold false avs)[k]? = some e →
      (e.isSome = true ↔
        alertFlag now threshold false (avs.take (k + 1)) ≠
          alertFlag now threshold false (avs.take k)) ∧
      ∀ alert, e = some alert →
        alert.BelowThreshold = alertFlag now threshold false (avs.take (k + 1))) ∧
    (∀ (k : Nat) (b : Bool),
      (((alertRun now threshold false avs).filterMap id).map Alert.BelowThreshold)[k]? = some b →
        b = decide (k % 2 = 0)) ∧
    List.Chain' (· ≠ ·)
      (((alertRun now threshold false avs).filterMap id).map Alert.BelowThreshold) ∧
    alertRun now (F64.num (9 / 10)) false
        [F64.num 1, F64.num (1 / 2), F64.num (1 / 2), F64.num 1, F64.num 1] =
      [none, some (NewAlert now (F64.num (1 / 2)) true), none,
        some (NewAlert now (F64.num 1) false), none] := by
  obtain ⟨halt, hchain⟩ := alertRun_flags_alternate now threshold avs false
  refine ⟨?_, ?_, ?_, ?_⟩
  · intro k e hk
    have hlen := (alertRun_append now threshold avs [] false).2.2
    have hklt : k < avs.length := by
      have := (List.getElem?_eq_some_iff.mp hk).1
      omega
    have hsplit : avs = avs.take k ++ avs[k] :: avs.drop (k + 1) := by
      rw [← List.drop_eq_getElem_cons hklt, List.take_append_drop]
    have htake : avs.take (k + 1) = avs.take k ++ [avs[k]] := by
      rw [List.take_succ, List.getElem?_eq_getElem hklt]; rfl
    obtain ⟨hrun, _, _⟩ :=
      alertRun_append now threshold (avs.take k) (avs[k] :: avs.drop (k + 1)) false
    have hlenk := (alertRun_append now threshold (avs.take k) [] false).2.2
    have hlenk' : (alertRun now threshold false (avs.take k)).length = k := by
      rw [hlenk, List.length_take]; omega
    obtain ⟨e', he', hiff, hb⟩ := alertRun_step now threshold
      (alertFlag now threshold false (avs.take k)) avs[k] (avs.drop (k + 1))
    have hflag := (alertRun_append now threshold (avs.take k) [avs[k]] false).2.1
    rw [hsplit, hrun, List.getElem?_append_right (by omega), hlenk', Nat.sub_self, he'] at hk
    cases hk
    rw [htake, hflag]
    exact ⟨hiff, hb⟩
  · intro k b hk
    have := halt k b hk
    rw [this]
    by_cases h : k % 2 = 0 <;> simp [h]
  · exact (List.chain'_cons'.mp hchain).2
  · simp [alertRun, alertRule, F64.lt, F64.ge]
    norm_num

end Daemon

namespace Agent

theorem agentCountCodes_eq (t : TraceResults) (s : Nat) :
    CountCodes t s = some ((t.drop s).foldl (fun m r =>
      (some r.StatusCode).elim m (fun k' => m.incr k')) GoMap.empty) := by
  unfold CountCodes
  rw [forFrom_eq_foldl t _ _ s _ rfl]
  rfl

/-- C12: what the agent's `CountCodes` does. It counts the status code 0 like any
other: one result of status code 0 gives the map of 0 to 1, and for every log,
start index and code `c`, 0 included, the entry of `c` is the number of results of
the window of status code `c`. -/
theorem agentCountCodes_counts_zero :
    CountCodes [⟨0, 0, 0, 0, 0, 0⟩] 0 = some ⟨[(0, 1)]⟩ ∧
    (∃ codes, CountCodes [⟨0, 0, 0, 0, 0, 0⟩] 0 = some codes ∧ codes.get? 0 = some 1) ∧
    ∀ (t : TraceResults) (s : Nat), ∃ codes, CountCodes t s = some codes ∧
      ∀ c : Int,
        codes.get? c =
          if (t.drop s).countP (fun r => decide (r.StatusCode = c)) = 0 then none
          else some (((t.drop s).countP (fun r => decide (r.StatusCode = c)) : Nat) : Int) := by
  refine ⟨by decide, ⟨_, rfl, by decide⟩, ?_⟩
  intro t s
  refine ⟨_, agentCountCodes_eq t s, ?_⟩
  intro c
  refine (GoMap.get?_tally (fun r : TraceResult => some r.StatusCode) c _ _).trans ?_
  simp [GoMap.get?_empty]

theorem NewWebsites.append_eq (URLs : List String) :
    ∀ w : Websites, URLs.foldl (fun w url => w ++ [({ URL := url } : Website)]) w =
      w ++ URLs.map (fun url => ({ URL := url } : Website)) := by
  induction URLs with
  | nil => intro w; simp
  | cons url URLs ih =>
    intro w
    rw [List.foldl_cons, ih, List.map_cons, List.append_assoc]
    rfl

/-- C14: for every list of URLs, `NewWebsites` returns a list of the same length
whose `i`-th website has the `i`-th URL, an empty log and the flag `DownAlertSent`
false, duplicates kept and the order preserved; of the empty list it returns the
empty list. -/
theorem NewWebsites_initial (URLs : List String) :
    NewWebsites URLs = URLs.map (fun url => ⟨url, [], false⟩) ∧
    (NewWebsites URLs).length = URLs.length ∧
    (∀ (i : Nat) (url : String), URLs[i]? = some url →
      (NewWebsites URLs)[i]? = some ⟨url, [], false⟩) ∧
    (∀ website ∈ NewWebsites URLs, website.DownAlertSent = false ∧ website.TraceResults = []) ∧
    NewWebsites [] = [] ∧
    NewWebsites ["a", "b", "a"] = [⟨"a", [], false⟩, ⟨"b", [], false⟩, ⟨"a", [], false⟩] := by
  have h : NewWebsites URLs = URLs.map (fun url => ⟨url, [], false⟩) := by
    unfold NewWebsites
    rw [NewWebsites.append_eq]
    rfl
  refine ⟨h, by rw [h, List.length_map], ?_, ?_, rfl, by decide⟩
  · intro i url hi
    rw [h, List.getElem?_map, hi]
    rfl
  · intro website hw
    rw [h, List.mem_map] at hw
    obtain ⟨url, _, rfl⟩ := hw
    exact ⟨rfl, rfl⟩

end Agent

namespace Daemon

/-- C13 (amended): after one evaluation of the alert rule at an availability `a` and a
threshold `th` that are both not NaN, the flag of the target is `a < th`, whatever
it was before; at `a = th` a target that is up stays up with no alert and a target
that is down recovers; and a second evaluation at the same availability emits no
alert. -/
theorem alert_flag_is_below (now : Int) (a th : F64) (d : Bool)
    (ha : a ≠ F64.nan) (hth : th ≠ F64.nan) :
    alertFlag now th d [a] = a.lt th ∧
    (a = th → alertRule now a th false = none ∧
      alertRule now a th true = some (NewAlert now a false, false)) ∧
    ∃ e, alertRun now th d [a, a] = [e, none] := by
  have hcompl : a.ge th = !a.lt th := by
    cases a <;> cases th <;> simp_all [F64.lt, F64.ge]
    rename_i q₁ q₂
    by_cases h : q₁ < q₂
    · simp [h, not_le.mpr h]
    · simp [h, le_of_not_lt h]
  have hflag : ∀ d', alertFlag now th d' [a] = a.lt th := by
    intro d'
    cases hlt : a.lt th <;> cases d' <;> simp [alertFlag, alertRule, hcompl, hlt]
  have hrefl : a.lt a = false := by
    cases a <;> simp_all [F64.lt]
  refine ⟨hflag d, ?_, ?_⟩
  · rintro rfl
    simp [alertRule, hcompl, hrefl]
  · cases hlt : a.lt th <;> cases d <;> simp [alertRun, alertRule, hcompl, hlt]

/-- The statement of C13 at the availability 1 and the threshold 1, for a target that
is down. -/
theorem alert_flag_is_below_witness :
    F64.num 1 ≠ F64.nan ∧
    alertFlag 0 (F64.num 1) true [F64.num 1] = (F64.num 1).lt (F64.num 1) ∧
    (F64.num 1 = F64.num 1 → alertRule 0 (F64.num 1) (F64.num 1) false = none ∧
      alertRule 0 (F64.num 1) (F64.num 1) true = some (NewAlert 0 (F64.num 1) false, false)) ∧
    ∃ e, alertRun 0 (F64.num 1) true [F64.num 1, F64.num 1] = [e, none] :=
  ⟨(fun h => by cases h),
    alert_flag_is_below 0 (F64.num 1) (F64.num 1) true (fun h => by cases h)
      (fun h => by cases h)⟩

/-- C13 as stated fails for a threshold that is NaN: a target that is down, of
availability 1, takes neither branch and stays down, while `1 < NaN` is false. -/
theorem alert_flag_nan_threshold :
    alertRule 0 (F64.num 1) F64.nan true = none ∧
    alertFlag 0 F64.nan true [F64.num 1] = true ∧
    (F64.num 1).lt F64.nan = false :=
  ⟨rfl, rfl, rfl⟩

/-- C18: for every log and every two timespans `a <= b` whose numbers of nanoseconds
fit a signed 64-bit integer, `StartIndexFor(b) <= StartIndexFor(a)`, and the window
of the shorter timespan is a suffix of the window of the longer one. -/
theorem StartIndexFor_antitone (now : Int) (t : TraceResults) (a b : Int)
    (h0 : 0 ≤ a) (hab : a ≤ b) (ha : durationFits a) (hb : durationFits b) :
    ∃ ia ib, StartIndexFor now t a = some ia ∧ StartIndexFor now t b = some ib ∧
      ib ≤ ia ∧ t.drop ia <:+ t.drop ib := by
  have _ := h0
  obtain ⟨ia, hia, _, hwina, _⟩ :=
    StartIndexFor.loop_spec t (threshold now a) t.length (le_refl _)
  obtain ⟨ib, hib, hleb, _, hprevb⟩ :=
    StartIndexFor.loop_spec t (threshold now b) t.length (le_refl _)
  rw [threshold_of_fits now a ha] at hwina
  rw [threshold_of_fits now b hb] at hprevb
  have hle : ib ≤ ia := by
    by_contra hlt
    obtain ⟨r, hr, hd⟩ := hprevb (by omega)
    have hj : ib - 1 < t.length := (List.getElem?_eq_some_iff.mp hr).1
    have := hwina (ib - 1) r (by omega) hj hr
    have hmul : a * Second ≤ b * Second := by
      unfold Second; omega
    omega
  refine ⟨ia, ib, hia, hib, hle, ?_⟩
  have hdrop : t.drop ia = (t.drop ib).drop (ia - ib) := by
    rw [List.drop_drop]
    congr 1
    omega
  rw [hdrop]
  exact List.drop_suffix _ _

/-- The statement of C18 at a log of two entries, six minutes old and dated now, for
the timespans of 180 and 600 seconds. -/
theorem StartIndexFor_antitone_witness :
    ((0 : Int) ≤ 180 ∧ (180 : Int) ≤ 600 ∧ durationFits 180 ∧ durationFits 600) ∧
    ∃ ia ib, StartIndexFor 0 [sample (-360 * Second) none 200, sample 0 none 200] 180 = some ia ∧
      StartIndexFor 0 [sample (-360 * Second) none 200, sample 0 none 200] 600 = some ib ∧
      ib ≤ ia ∧
      [sample (-360 * Second) none 200, sample 0 none 200].drop ia <:+
        [sample (-360 * Second) none 200, sample 0 none 200].drop ib :=
  ⟨⟨by decide, by decide, by decide, by decide⟩,
    StartIndexFor_antitone 0 _ 180 600 (by decide) (by decide) (by decide) (by decide)⟩

/-- C19: for every website, timespan and `now`, the start index `i` of
`StartIndexFor(timespan)` exists, `Website.Availability` is `Availability(i)`, and
whenever `Average(i)` and `Max(i)` return, `aggregateResults` returns the metric
whose `Availability` is the value of `Website.Availability` and whose
`StatusCodeCounts` and `ErrorCounts` are `CountCodes(i)` and `CountErrors(i)`. -/
theorem aggregateResults_agrees {B : Type} (average max : TraceResults → Nat → Option B)
    (now : Int) (w : Website) (timespan : Int) :
    ∃ i, StartIndexFor now w.TraceResults timespan = some i ∧
      w.Availability now timespan = Availability w.TraceResults i ∧
      ∀ avg mx, average w.TraceResults i = some avg → max w.TraceResults i = some mx →
        ∃ m, w.aggregateResults average max now timespan = some m ∧
          w.Availability now timespan = some m.Availability ∧
          CountCodes w.TraceResults i = some m.StatusCodeCounts ∧
          CountErrors w.TraceResults i = some m.ErrorCounts ∧
          m.Average = avg ∧ m.Max = mx := by
  obtain ⟨i, hi, _⟩ := StartIndexFor.loop_spec w.TraceResults (threshold now timespan)
    w.TraceResults.length (le_refl _)
  have hi' : StartIndexFor now w.TraceResults timespan = some i := hi
  have hav : w.Availability now timespan = Availability w.TraceResults i := by
    unfold Website.Availability
    simp only [hi', Option.some_bind]
  refine ⟨i, hi', hav, ?_⟩
  intro avg mx havg hmx
  obtain ⟨av, hA⟩ : ∃ av, Availability w.TraceResults i = some av :=
    ⟨_, Availability_eq _ i⟩
  obtain ⟨codes, hC⟩ : ∃ codes, CountCodes w.TraceResults i = some codes :=
    ⟨_, CountCodes_eq _ i⟩
  obtain ⟨errors, hE⟩ : ∃ errors, CountErrors w.TraceResults i = some errors :=
    ⟨_, CountErrors_eq _ i⟩
  refine ⟨⟨av, avg, mx, codes, errors⟩, ?_, ?_, hC, hE, rfl, rfl⟩
  · unfold Website.aggregateResults
    simp only [hi', Option.some_bind, hA, havg, hmx, hC, hE, Option.map_some']
  · rw [hav, hA]

end Daemon

namespace Client

/-- C15: what `Refresh` does. For a negative `CurrentIdx` the test
`CurrentIdx >= len(URLs)` is false and the read `URLs[CurrentIdx]` panics, whatever
the list of URLs; for a `CurrentIdx` that is not negative, `Refresh` returns, leaving
the page as it is when `CurrentIdx >= len(URLs)` and else reading the URL at an index
within range. -/
theorem Refresh_index (σ : Type) (formatAlerts : String → String)
    (refreshSides : σ → String → σ) (p : UIPage σ) :
    UIPage.Refresh formatAlerts refreshSides p ⟨-1, ["a"]⟩ = none ∧
    (∀ s : Store, s.CurrentIdx < 0 → UIPage.Refresh formatAlerts refreshSides p s = none) ∧
    (∀ s : Store, 0 ≤ s.CurrentIdx →
      ∃ p', UIPage.Refresh formatAlerts refreshSides p s = some p' ∧
        ((s.URLs.length : Int) ≤ s.CurrentIdx → p' = p) ∧
        (s.CurrentIdx < (s.URLs.length : Int) →
          ∃ url, s.URLs[s.CurrentIdx.toNat]? = some url ∧ p'.Title = url)) := by
  have hneg : ∀ s : Store, s.CurrentIdx < 0 →
      UIPage.Refresh formatAlerts refreshSides p s = none := by
    intro s hs
    have h1 : ¬ (s.CurrentIdx ≥ (s.URLs.length : Int)) := by omega
    have h2 : ¬ (0 ≤ s.CurrentIdx) := by omega
    simp [UIPage.Refresh, index, h1, h2]
  refine ⟨hneg _ (by decide), hneg, ?_⟩
  intro s hs
  by_cases hge : s.CurrentIdx ≥ (s.URLs.length : Int)
  · refine ⟨p, by simp [UIPage.Refresh, hge], fun _ => rfl, fun hlt => ?_⟩
    omega
  · have hlt : s.CurrentIdx.toNat < s.URLs.length := by omega
    have hget : s.URLs[s.CurrentIdx.toNat]? = some s.URLs[s.CurrentIdx.toNat] :=
      List.getElem?_eq_getElem hlt
    refine ⟨⟨s.URLs[s.CurrentIdx.toNat],
      "Page " ++ Itoa (s.CurrentIdx + 1) ++ "/" ++ Itoa (s.URLs.length : Int),
      formatAlerts s.URLs[s.CurrentIdx.toNat],
      refreshSides p.Sides s.URLs[s.CurrentIdx.toNat]⟩, ?_, fun h => ?_,
      fun _ => ⟨_, hget, rfl⟩⟩
    · simp only [UIPage.Refresh, hge, if_false, index, hs, if_true, hget, Option.map_some']
    · omega

end Client
theorem GoMap.sum_insert_incr {K : Type} [DecidableEq K] (k : K) :
    ∀ m : List (K × Int),
      ((GoMap.insert m k ((GoMap.find m k).getD 0 + 1)).map Prod.snd).sum =
        (m.map Prod.snd).sum + 1 := by
  intro m
  induction m with
  | nil => simp [GoMap.insert, GoMap.find]
  | cons e m ih =>
    obtain ⟨k', v'⟩ := e
    by_cases h : k' = k
    · subst h
      simp [GoMap.insert, GoMap.find]
      omega
    · simp only [GoMap.insert, GoMap.find, h, if_false, List.map_cons, List.sum_cons, ih]
      omega

theorem GoMap.sum_tally {α K : Type} [DecidableEq K] (key : α → Option K) :
    ∀ (l : List α) (m : GoMap K Int),
      ((l.foldl (fun m r => (key r).elim m (fun k' => m.incr k')) m).entries.map Prod.snd).sum =
        (m.entries.map Prod.snd).sum + (l.countP (fun r => (key r).isSome) : Nat) := by
  intro l
  induction l with
  | nil => intro m; simp
  | cons r l ih =>
    intro m
    rw [List.foldl_cons, ih, List.countP_cons]
    cases hk : key r with
    | none => simp
    | some k =>
      have hs : ((m.incr k).entries.map Prod.snd).sum = (m.entries.map Prod.snd).sum + 1 :=
        GoMap.sum_insert_incr k m.entries
      simp only [Option.elim, hs, Option.isSome_some, if_true]
      push_cast
      omega

theorem GoMap.find_eq_none {K V : Type} [DecidableEq K] (k : K) :
    ∀ m : List (K × V), GoMap.find m k = none ↔ k ∉ m.map Prod.fst := by
  intro m
  induction m with
  | nil => simp [GoMap.find]
  | cons e m ih =>
    obtain ⟨k', v'⟩ := e
    by_cases h : k' = k
    · subst h
      simp [GoMap.find]
    · have hne : ¬ (k = k') := fun e => h e.symm
      simp only [GoMap.find, h, if_false, ih, List.map_cons, List.mem_cons, hne, false_or]

theorem GoMap.find_eq_some {K V : Type} [DecidableEq K] (k : K) (v : V) :
    ∀ m : List (K × V), (m.map Prod.fst).Nodup →
      (GoMap.find m k = some v ↔ (k, v) ∈ m) := by
  intro m
  induction m with
  | nil => intro _; simp [GoMap.find]
  | cons e m ih =>
    obtain ⟨k', v'⟩ := e
    intro hnd
    rw [List.map_cons, List.nodup_cons] at hnd
    by_cases h : k' = k
    · subst h
      have hnot : (k', v) ∉ m := fun hm => hnd.1 (List.mem_map.mpr ⟨(k', v), hm, rfl⟩)
      simp only [GoMap.find, if_true, Option.some.injEq, List.mem_cons, Prod.mk.injEq,
        true_and, hnot, or_false]
      exact eq_comm
    · have hne : ¬ (k = k') := fun e => h e.symm
      simp only [GoMap.find, h, if_false, ih hnd.2, List.mem_cons, Prod.mk.injEq, hne,
        false_and, false_or]

theorem GoMap.find_perm {K V : Type} [DecidableEq K] (m m' : List (K × V)) (k : K)
    (hp : m'.Perm m) (hnd : (m.map Prod.fst).Nodup) : GoMap.find m' k = GoMap.find m k := by
  have hpk : (m'.map Prod.fst).Perm (m.map Prod.fst) := hp.map _
  have hnd' : (m'.map Prod.fst).Nodup := hpk.nodup_iff.mpr hnd
  cases hf : GoMap.find m k with
  | none =>
    rw [GoMap.find_eq_none] at hf ⊢
    exact fun h => hf (hpk.mem_iff.mp h)
  | some v =>
    rw [GoMap.find_eq_some k v m hnd] at hf
    rw [GoMap.find_eq_some k v m' hnd']
    exact hp.mem_iff.mpr hf

namespace Client

theorem wrapInt64_add_left (x y : Int) : wrapInt64 (wrapInt64 x + y) = wrapInt64 (x + y) := by
  unfold wrapInt64
  omega

theorem Count_eq_wrap (errors : GoMap String Int) :
    Count errors = wrapInt64 (errors.entries.map Prod.snd).sum := by
  have h : ∀ (l : List (String × Int)) (c : Int),
      l.foldl (fun c e => wrapInt64 (c + e.2)) (wrapInt64 c) =
        wrapInt64 (c + (l.map Prod.snd).sum) := by
    intro l
    induction l with
    | nil => intro c; simp
    | cons e l ih =>
      intro c
      rw [List.foldl_cons, wrapInt64_add_left, ih, List.map_cons, List.sum_cons]
      congr 1
      omega
  have h0 : wrapInt64 0 = 0 := by decide
  unfold Count
  have := h errors.entries 0
  rw [h0] at this
  rw [this]
  congr 1
  omega

theorem ExtractResponseCounts.keys_eq (l : List (Int × Int)) :
    ∀ keys : List Int, l.foldl (fun keys e => keys ++ [e.1]) keys = keys ++ l.map Prod.fst := by
  induction l with
  | nil => intro keys; simp
  | cons e l ih =>
    intro keys
    rw [List.foldl_cons, ih, List.map_cons, List.append_assoc]
    rfl

theorem ExtractResponseCounts.filled_eq (f : Int → Int) (g : Int → String) (keys : List Int) :
    ∀ acc : List Int × List String,
      keys.foldl (fun (acc : List Int × List String) key => (acc.1 ++ [f key], acc.2 ++ [g key]))
          acc =
        (acc.1 ++ keys.map f, acc.2 ++ keys.map g) := by
  induction keys with
  | nil => intro acc; simp
  | cons key keys ih =>
    intro acc
    rw [List.foldl_cons, ih]
    simp

theorem ExtractResponseCounts_eq {B : Type} (m : Payload.Metric B) :
    ExtractResponseCounts m =
      ((sortInts (m.StatusCodeCounts.entries.map Prod.fst)).map
          (fun k => (m.StatusCodeCounts.get? k).getD 0) ++
        [wrapInt64 (m.ErrorCounts.entries.map Prod.snd).sum],
       (sortInts (m.StatusCodeCounts.entries.map Prod.fst)).map Itoa ++ ["err"]) := by
  unfold ExtractResponseCounts
  simp only [ExtractResponseCounts.keys_eq, ExtractResponseCounts.filled_eq, List.nil_append,
    Count_eq_wrap]

end Client
namespace Client

/-- C16 (amended): for every metric whose map of status codes has one entry a key,
`ExtractResponseCounts` returns values and labels of equal length, the number of
keys plus one; the labels before the last are the decimal renderings of the status
codes in strictly increasing order, each at the position of its count in the values;
the last label is "err" and the last value is the sum of the counts of
`ErrorCounts` in the arithmetic of a Go `int`, the sum reduced modulo `2^64` to the
signed 64-bit range, which is the sum itself when the sum fits; and the result is
the same for any other order of the entries of the two maps. -/
theorem ExtractResponseCounts_sorted {B : Type} (m : Payload.Metric B)
    (hkeys : (m.StatusCodeCounts.entries.map Prod.fst).Nodup) :
    ∃ keys : List Int,
      keys.Sorted (· < ·) ∧ keys.Perm (m.StatusCodeCounts.entries.map Prod.fst) ∧
      (ExtractResponseCounts m).2 = keys.map Itoa ++ ["err"] ∧
      (ExtractResponseCounts m).1 =
        keys.map (fun k => (m.StatusCodeCounts.get? k).getD 0) ++
          [wrapInt64 (m.ErrorCounts.entries.map Prod.snd).sum] ∧
      (-(2 : Int) ^ 63 ≤ (m.ErrorCounts.entries.map Prod.snd).sum ∧
          (m.ErrorCounts.entries.map Prod.snd).sum < 2 ^ 63 →
        (ExtractResponseCounts m).1 =
          keys.map (fun k => (m.StatusCodeCounts.get? k).getD 0) ++
            [(m.ErrorCounts.entries.map Prod.snd).sum]) ∧
      (∀ k ∈ keys, ∃ v, m.StatusCodeCounts.get? k = some v ∧
        (k, v) ∈ m.StatusCodeCounts.entries) ∧
      (ExtractResponseCounts m).1.length = (ExtractResponseCounts m).2.length ∧
      (ExtractResponseCounts m).1.length = m.StatusCodeCounts.entries.length + 1 ∧
      ∀ m' : Payload.Metric B,
        m'.StatusCodeCounts.entries.Perm m.StatusCodeCounts.entries →
        m'.ErrorCounts.entries.Perm m.ErrorCounts.entries →
        ExtractResponseCounts m' = ExtractResponseCounts m := by
  have hperm : (sortInts (m.StatusCodeCounts.entries.map Prod.fst)).Perm
      (m.StatusCodeCounts.entries.map Prod.fst) := List.perm_insertionSort _ _
  have hsorted : (sortInts (m.StatusCodeCounts.entries.map Prod.fst)).Sorted (· ≤ ·) :=
    List.sorted_insertionSort _ _
  have hlen : (sortInts (m.StatusCodeCounts.entries.map Prod.fst)).length =
      m.StatusCodeCounts.entries.length := by
    rw [hperm.length_eq, List.length_map]
  refine ⟨sortInts (m.StatusCodeCounts.entries.map Prod.fst),
    hsorted.lt_of_le (hperm.nodup_iff.mpr hkeys), hperm, ?_, ?_, ?_, ?_, ?_, ?_, ?_⟩
  · rw [ExtractResponseCounts_eq]
  · rw [ExtractResponseCounts_eq]
  · rintro ⟨h1, h2⟩
    rw [ExtractResponseCounts_eq, wrapInt64_of_range _ h1 h2]
  · intro k hk
    have hmem : k ∈ m.StatusCodeCounts.entries.map Prod.fst := hperm.mem_iff.mp hk
    cases hf : GoMap.find m.StatusCodeCounts.entries k with
    | none => exact absurd hmem ((GoMap.find_eq_none k _).mp hf)
    | some v => exact ⟨v, hf, (GoMap.find_eq_some k v _ hkeys).mp hf⟩
  · rw [ExtractResponseCounts_eq]
    simp
  · rw [ExtractResponseCounts_eq]
    simp [hlen]
  · intro m' hp he
    have hpk : (m'.StatusCodeCounts.entries.map Prod.fst).Perm
        (m.StatusCodeCounts.entries.map Prod.fst) := hp.map _
    have hsort : sortInts (m'.StatusCodeCounts.entries.map Prod.fst) =
        sortInts (m.StatusCodeCounts.entries.map Prod.fst) :=
      List.eq_of_perm_of_sorted
        (((List.perm_insertionSort _ _).trans hpk).trans hperm.symm)
        (List.sorted_insertionSort _ _) hsorted
    have hget : ∀ k, m'.StatusCodeCounts.get? k = m.StatusCodeCounts.get? k :=
      fun k => GoMap.find_perm _ _ k hp hkeys
    have hsum : (m'.ErrorCounts.entries.map Prod.snd).sum =
        (m.ErrorCounts.entries.map Prod.snd).sum := (he.map _).sum_eq
    rw [ExtractResponseCounts_eq, ExtractResponseCounts_eq, hsort, hsum]
    simp only [hget]

/-- The statement of C16 at a metric of the status codes 503 and 200, which come out
as the labels "200", "503", "err" with the values 2, 1 and the number of errors. -/
theorem ExtractResponseCounts_sorted_witness :
    (sampleMetric.StatusCodeCounts.entries.map Prod.fst).Nodup ∧
    ExtractResponseCounts sampleMetric = ([2, 1, 4], ["200", "503", "err"]) ∧
    ∃ keys : List Int,
      keys.Sorted (· < ·) ∧ keys.Perm (sampleMetric.StatusCodeCounts.entries.map Prod.fst) ∧
      (ExtractResponseCounts sampleMetric).2 = keys.map Itoa ++ ["err"] ∧
      (ExtractResponseCounts sampleMetric).1 =
        keys.map (fun k => (sampleMetric.StatusCodeCounts.get? k).getD 0) ++
          [wrapInt64 (sampleMetric.ErrorCounts.entries.map Prod.snd).sum] ∧
      (-(2 : Int) ^ 63 ≤ (sampleMetric.ErrorCounts.entries.map Prod.snd).sum ∧
          (sampleMetric.ErrorCounts.entries.map Prod.snd).sum < 2 ^ 63 →
        (ExtractResponseCounts sampleMetric).1 =
          keys.map (fun k => (sampleMetric.StatusCodeCounts.get? k).getD 0) ++
            [(sampleMetric.ErrorCounts.entries.map Prod.snd).sum]) ∧
      (∀ k ∈ keys, ∃ v, sampleMetric.StatusCodeCounts.get? k = some v ∧
        (k, v) ∈ sampleMetric.StatusCodeCounts.entries) ∧
      (ExtractResponseCounts sampleMetric).1.length =
        (ExtractResponseCounts sampleMetric).2.length ∧
      (ExtractResponseCounts sampleMetric).1.length =
        sampleMetric.StatusCodeCounts.entries.length + 1 ∧
      ∀ m' : Payload.Metric Unit,
        m'.StatusCodeCounts.entries.Perm sampleMetric.StatusCodeCounts.entries →
        m'.ErrorCounts.entries.Perm sampleMetric.ErrorCounts.entries →
        ExtractResponseCounts m' = ExtractResponseCounts sampleMetric :=
  ⟨by decide, by decide, ExtractResponseCounts_sorted sampleMetric (by decide)⟩

/-- C16 as stated fails when the sum of the counts overflows: for the counts
9223372036854775807 and 1, whose sum is `2^63`, the last value is `-2^63`. -/
theorem ExtractResponseCounts_sum_overflow :
    (overflowMetric.StatusCodeCounts.entries.map Prod.fst).Nodup ∧
    ExtractResponseCounts overflowMetric = ([-9223372036854775808], ["err"]) ∧
    (overflowMetric.ErrorCounts.entries.map Prod.snd).sum = 9223372036854775808 :=
  ⟨by decide, by decide, by decide⟩

/-- C17: for a log `t` that is a Go slice, so of length below `2^63`, and a start
index `s <= len(t)`, `Count(CountErrors(s))` is the number of entries of `t[s:]` whose
error is not nil, and the sum of the values of `CountCodes(s)` is the number of
entries of `t[s:]` whose status code is not 0; when every sample of the window has a
status code of the documented domain, an HTTP response code or 0, so not negative,
and exactly one of `Error != nil` and `StatusCode > 0` holds of it, the two sums add
up to `len(t) - s`. -/
theorem tallies_add_up (t : Daemon.TraceResults) (s : Nat) (hs : s ≤ t.length)
    (hlen : (t.length : Int) < 2 ^ 63) :
    ∃ codes errors, Daemon.CountCodes t s = some codes ∧ Daemon.CountErrors t s = some errors ∧
      Count errors = ((t.drop s).countP (fun r => r.Error.isSome) : Nat) ∧
      (codes.entries.map Prod.snd).sum =
        ((t.drop s).countP (fun r => decide (r.StatusCode ≠ 0)) : Nat) ∧
      ((∀ r ∈ t.drop s, 0 ≤ r.StatusCode ∧
          ((r.Error ≠ none ∧ ¬ 0 < r.StatusCode) ∨ (r.Error = none ∧ 0 < r.StatusCode))) →
        Count errors + (codes.entries.map Prod.snd).sum = (t.length : Int) - (s : Int)) := by
  have hE : Count ((t.drop s).foldl (fun m r =>
      (r.Error.map GoError.Error).elim m (fun k' => m.incr k')) GoMap.empty) =
      ((t.drop s).countP (fun r => r.Error.isSome) : Nat) := by
    rw [Count_eq_wrap, GoMap.sum_tally]
    have hfun : (fun r : Daemon.TraceResult => (r.Error.map GoError.Error).isSome) =
        (fun r => r.Error.isSome) := by
      funext r; cases r.Error <;> rfl
    rw [hfun]
    have hle : (t.drop s).countP (fun r => r.Error.isSome) ≤ t.length := by
      have := List.countP_le_length (p := fun r : Daemon.TraceResult => r.Error.isSome)
        (l := t.drop s)
      rw [List.length_drop] at this
      omega
    have h0 : ((GoMap.empty : GoMap String Int).entries.map Prod.snd).sum = 0 := rfl
    rw [h0, wrapInt64_of_range _ (by omega) (by omega)]
    omega
  have hC : (((t.drop s).foldl (fun m r =>
      (if r.StatusCode ≠ 0 then some r.StatusCode else none).elim m (fun k' => m.incr k'))
      GoMap.empty).entries.map Prod.snd).sum =
      ((t.drop s).countP (fun r => decide (r.StatusCode ≠ 0)) : Nat) := by
    rw [GoMap.sum_tally]
    have hfun : (fun r : Daemon.TraceResult =>
        (if r.StatusCode ≠ 0 then some r.StatusCode else none).isSome) =
        (fun r => decide (r.StatusCode ≠ 0)) := by
      funext r; by_cases h : r.StatusCode = 0 <;> simp [h]
    rw [hfun]
    simp [GoMap.empty]
  refine ⟨_, _, Daemon.CountCodes_eq t s, Daemon.CountErrors_eq t s, hE, hC, ?_⟩
  intro hinv
  rw [hE, hC]
  have hcongr : (t.drop s).countP (fun r => decide (r.StatusCode ≠ 0)) =
      (t.drop s).countP (fun r => ! r.Error.isSome) := by
    apply List.countP_congr
    intro r hr
    obtain ⟨h0, h | h⟩ := hinv r hr
    · have hz : r.StatusCode = 0 := by omega
      have hsome : r.Error.isSome = true := Option.isSome_iff_ne_none.mpr h.1
      simp [hz, hsome]
    · have hz : r.StatusCode ≠ 0 := by omega
      simp [hz, h.1]
  have hlen := List.length_eq_countP_add_countP (fun r : Daemon.TraceResult => r.Error.isSome)
    (t.drop s)
  have hcongr' : (t.drop s).countP (fun r => ! r.Error.isSome) =
      (t.drop s).countP (fun r => ¬ (r.Error.isSome = true)) := by
    apply List.countP_congr
    intro r _
    cases r.Error.isSome <;> simp
  rw [List.length_drop] at hlen
  rw [hcongr, hcongr']
  omega

/-- The statement of C17 at the status codes 200, 200, 503 and an error "timeout" with
the status code 0: every sample is of the documented domain and has exactly one of
an error and a positive status code; one error and three status codes add up to the
four results of the window. -/
theorem tallies_add_up_witness :
    (0 ≤ [Daemon.sample 0 none 200, Daemon.sample 0 none 200, Daemon.sample 0 none 503,
      Daemon.sample 0 (some ⟨"timeout", 0⟩) 0].length) ∧
    (([Daemon.sample 0 none 200, Daemon.sample 0 none 200, Daemon.sample 0 none 503,
      Daemon.sample 0 (some ⟨"timeout", 0⟩) 0].length : Int) < 2 ^ 63) ∧
    (∀ r ∈ [Daemon.sample 0 none 200, Daemon.sample 0 none 200, Daemon.sample 0 none 503,
        Daemon.sample 0 (some ⟨"timeout", 0⟩) 0].drop 0,
      0 ≤ r.StatusCode ∧
        ((r.Error ≠ none ∧ ¬ 0 < r.StatusCode) ∨ (r.Error = none ∧ 0 < r.StatusCode))) ∧
    ∃ codes errors,
      Daemon.CountCodes [Daemon.sample 0 none 200, Daemon.sample 0 none 200,
        Daemon.sample 0 none 503, Daemon.sample 0 (some ⟨"timeout", 0⟩) 0] 0 = some codes ∧
      Daemon.CountErrors [Daemon.sample 0 none 200, Daemon.sample 0 none 200,
        Daemon.sample 0 none 503, Daemon.sample 0 (some ⟨"timeout", 0⟩) 0] 0 = some errors ∧
      Count errors = 1 ∧ (codes.entries.map Prod.snd).sum = 3 ∧
      Count errors + (codes.entries.map Prod.snd).sum = 4 := by
  have hinv : ∀ r ∈ [Daemon.sample 0 none 200, Daemon.sample 0 none 200,
      Daemon.sample 0 none 503, Daemon.sample 0 (some ⟨"timeout", 0⟩) 0].drop 0,
      0 ≤ r.StatusCode ∧
        ((r.Error ≠ none ∧ ¬ 0 < r.StatusCode) ∨ (r.Error = none ∧ 0 < r.StatusCode)) := by
    decide
  refine ⟨by decide, by decide, hinv, ?_⟩
  obtain ⟨codes, errors, hc, he, h1, h2, h3⟩ :=
    tallies_add_up [Daemon.sample 0 none 200, Daemon.sample 0 none 200,
      Daemon.sample 0 none 503, Daemon.sample 0 (some ⟨"timeout", 0⟩) 0] 0 (by decide)
      (by decide)
  refine ⟨codes, errors, hc, he, by rw [h1]; decide, by rw [h2]; decide, ?_⟩
  rw [h3 hinv]
  decide

end Client

end Monitor
